import Mathlib

/-!
# IAM inventory collector (`providers/aws/iam.go`)

A shallow embedding of the IAM generator of terraformer: the enumeration
routines `getUsers`, `getUserPolices`, `getGroups`, `getPolicies`, `getRoles`,
their driver `InitResources`, and the formatter `PostConvertHook`.

* Go strings are Lean strings; `aws.StringValue` maps a nil pointer to `""`.
* A paginator is the list of pages its successive `Next` calls deliver,
  followed by the error (if any) that `Err` reports once `Next` returned false.
* `g.Resources` is a list; `append` adds at the end.
* `log.Println(err)` appends to the `Log` component of the state.
* Go maps are reference types: a record holds a reference (an address) to its
  attribute map, and the map objects live in a heap.
-/

namespace Iam

/-! ## Values of the SDK -/

/-- Go errors, identified by their message. -/
abbrev Error := String

/-- The helper `aws.StringValue`: the pointed-to string, `""` for a nil pointer. -/
def StringValue : Option String → String
  | none => ""
  | some s => s

/-- One `strings.Replace(s, old, new, -1)` scan for a non-empty `old`: at each
position either `old` matches (emit `new`, skip the rest of the match) or the
character is copied.  `skip` counts the characters of a match still to drop. -/
def replaceScan (old new : List Char) : Nat → List Char → List Char
  | _, [] => []
  | skip + 1, _ :: cs => replaceScan old new skip cs
  | 0, c :: cs =>
    if old.isPrefixOf (c :: cs) then new ++ replaceScan old new (old.length - 1) cs
    else c :: replaceScan old new 0 cs

/-- The call `strings.Replace(s, old, new, -1)` for a non-empty `old`. -/
def stringsReplaceAll (s old new : String) : String :=
  ⟨replaceScan old.data new.data 0 s.data⟩

/-- A paginator after it has been driven to the end: the pages delivered while
`Next` returned true, and the value of `Err()` afterwards. -/
structure Paginator (α : Type) where
  pages : List (List α)
  err : Option Error

/-- The type `iam.User` (the fields read by the generator). -/
structure User where
  UserName : Option String
  UserId : Option String
  deriving DecidableEq, Repr

/-- The type `iam.Group`. -/
structure Group where
  GroupName : Option String
  deriving DecidableEq, Repr

/-- The type `iam.Policy`. -/
structure Policy where
  PolicyName : Option String
  Arn : Option String
  deriving DecidableEq, Repr

/-- The type `iam.Role`. -/
structure Role where
  RoleId : Option String
  RoleName : Option String
  deriving DecidableEq, Repr

/-- The IAM client `svc`: what each list request yields when paginated.  The
sub-listings take the `UserName` / `GroupName` / `RoleName` pointer of the
request input, `ListPolicies` takes the scope. -/
structure Client where
  ListUsers : Paginator User
  ListUserPolicies : Option String → Paginator String
  ListGroupsForUser : Option String → Paginator Group
  ListGroups : Paginator Group
  ListGroupPolicies : Option String → Paginator String
  ListPolicies : String → Paginator Policy
  ListRoles : Paginator Role
  ListRolePolicies : Option String → Paginator String

/-- The constant `iam.PolicyScopeTypeLocal`. -/
def PolicyScopeTypeLocal : String := "Local"

/-! ## Resource records -/

/-- A dynamic value of type `interface{}` held in an attribute map: a string,
or a value of any other dynamic type (the nil interface included). -/
inductive Value where
  | str (s : String)
  | other (tag : Nat)
  deriving DecidableEq, Repr

/-- The contents of a `map[string]interface{}` object: the value bound to
each key, `none` for a key that is not in the map. -/
abbrev ItemMap := String → Option Value

/-- The map objects of the program, by address. -/
abbrev Heap := Nat → ItemMap

/-- Modelled from the spec: the type `terraform_utils.Resource` is declared
outside this file; the spec gives a record as opaque id, display name,
resource-type tag, provider tag, attribute map and the list of attribute-path
prefixes allowed to be empty.  `InstanceType` is the tag read as
`resource.InstanceInfo.Type`; `Attributes` are the initial attributes handed to
the constructor; `Item` is the attribute map indexed as `resource.Item[key]`,
of type `M`. -/
structure ResourceOf (M : Type) where
  ID : String
  ResourceName : String
  InstanceType : String
  Provider : String
  Attributes : List (String × String)
  AllowEmptyValues : List String
  Item : M
  deriving DecidableEq, Repr

/-- The Go struct value: its `Item` field is a reference to a map object,
`none` being the nil map. -/
abbrev Resource := ResourceOf (Option Nat)

/-- A record with the contents of its attribute map in place of the
reference. -/
abbrev Record := ResourceOf (Option ItemMap)

/-- The same record with another `Item` component. -/
def ResourceOf.withItem {M N : Type} (r : ResourceOf M) (item : N) : ResourceOf N :=
  { ID := r.ID, ResourceName := r.ResourceName, InstanceType := r.InstanceType,
    Provider := r.Provider, Attributes := r.Attributes,
    AllowEmptyValues := r.AllowEmptyValues, Item := item }

/-- Modelled from the spec: the constructor `terraform_utils.NewResource`
(declared outside this file) records its arguments; the attribute map is not
among them and starts as the nil map.  The last argument, the additional
fields, is the empty map at every call site. -/
def NewResource (ID resourceName resourceType provider : String)
    (attributes : List (String × String)) (allowEmptyValues : List String) : Resource :=
  { ID := ID, ResourceName := resourceName, InstanceType := resourceType, Provider := provider,
    Attributes := attributes, AllowEmptyValues := allowEmptyValues, Item := none }

/-- Modelled from the spec: the constructor `terraform_utils.NewSimpleResource`
(declared outside this file), a record without initial attributes. -/
def NewSimpleResource (ID resourceName resourceType provider : String)
    (allowEmptyValues : List String) : Resource :=
  NewResource ID resourceName resourceType provider [] allowEmptyValues

/-- The variable `IamAllowEmptyValues`. -/
def IamAllowEmptyValues : List String := ["tags."]

/-- The generator `IamGenerator`: its `Resources` slice, and next to it the
lines written by `log.Println`. -/
structure IamGenerator where
  Resources : List Resource
  Log : List Error
  deriving DecidableEq, Repr

/-- The statement `g.Resources = append(g.Resources, r)`. -/
def IamGenerator.append (g : IamGenerator) (r : Resource) : IamGenerator :=
  { g with Resources := g.Resources ++ [r] }

/-- The statement `log.Println(err)`. -/
def IamGenerator.logPrintln (g : IamGenerator) (err : Error) : IamGenerator :=
  { g with Log := g.Log ++ [err] }

/-- The pattern `if err != nil { log.Println(err) }`. -/
def IamGenerator.logIfErr (g : IamGenerator) : Option Error → IamGenerator
  | none => g
  | some err => g.logPrintln err

/-- The loop `for p.Next(ctx) { for _, x := range p.CurrentPage().Xs { body } }`. -/
def forPages {α σ : Type} (p : Paginator α) (body : σ → α → σ) (init : σ) : σ :=
  p.pages.foldl (fun st page => page.foldl body st) init

/-! ## The enumeration routines -/

/-- The method `getUserPolices`. -/
def getUserPolices (g : IamGenerator) (svc : Client) (userName : Option String) :
    IamGenerator × Option Error :=
  let p := svc.ListUserPolicies userName
  let g := forPages p (fun g policy =>
    let resourceName := StringValue userName ++ "_" ++ policy
    let resourceName := stringsReplaceAll resourceName "@" ""
    let policyID := StringValue userName ++ ":" ++ policy
    g.append (NewSimpleResource policyID resourceName "aws_iam_user_policy" "aws"
      IamAllowEmptyValues)) g
  (g, p.err)

/-- The method `getUserGroup` (its only call is commented out in `getUsers`). -/
def getUserGroup (g : IamGenerator) (svc : Client) (userName : Option String) :
    IamGenerator × Option Error :=
  let p := svc.ListGroupsForUser userName
  let g := forPages p (fun g group =>
    let resourceName := StringValue group.GroupName
    let groupIDAttachment := StringValue group.GroupName
    g.append (NewResource groupIDAttachment resourceName "aws_iam_user_group_membership" "aws"
      [("user", StringValue userName)] IamAllowEmptyValues)) g
  (g, p.err)

/-- The method `getUsers`. -/
def getUsers (g : IamGenerator) (svc : Client) : IamGenerator × Option Error :=
  let p := svc.ListUsers
  let g := forPages p (fun g user =>
    let resourceName := StringValue user.UserName
    let g := g.append (NewResource resourceName (StringValue user.UserId) "aws_iam_user" "aws"
      [("force_destroy", "false")] IamAllowEmptyValues)
    let (g, err) := getUserPolices g svc user.UserName
    g.logIfErr err) g
  (g, p.err)

/-- The method `getPolicies`. -/
def getPolicies (g : IamGenerator) (svc : Client) : IamGenerator × Option Error :=
  let p := svc.ListPolicies PolicyScopeTypeLocal
  let g := forPages p (fun g policy =>
    let resourceName := StringValue policy.PolicyName
    let policyARN := StringValue policy.Arn
    let g := g.append (NewResource policyARN resourceName "aws_iam_policy_attachment" "aws"
      [("policy_arn", policyARN), ("name", resourceName)] IamAllowEmptyValues)
    g.append (NewSimpleResource policyARN resourceName "aws_iam_policy" "aws"
      IamAllowEmptyValues)) g
  (g, p.err)

/-- The method `getGroups`. -/
def getGroups (g : IamGenerator) (svc : Client) : IamGenerator × Option Error :=
  let p := svc.ListGroups
  let g := forPages p (fun g group =>
    let resourceName := StringValue group.GroupName
    let g := g.append (NewSimpleResource resourceName resourceName "aws_iam_group" "aws"
      IamAllowEmptyValues)
    let g := g.append (NewResource resourceName resourceName "aws_iam_group_membership" "aws"
      [("group", resourceName), ("name", resourceName)] ["tags.", "users."])
    let groupPoliciesPage := svc.ListGroupPolicies group.GroupName
    let g := forPages groupPoliciesPage (fun g policy =>
      let id := resourceName ++ ":" ++ policy
      let groupPolicyName := resourceName ++ "_" ++ policy
      g.append (NewResource id groupPolicyName "aws_iam_group_policy" "aws" []
        IamAllowEmptyValues)) g
    g.logIfErr groupPoliciesPage.err) g
  (g, p.err)

/-- The method `getRoles`.  The `continue` after logging a sub-listing error is
the last statement of the loop body. -/
def getRoles (g : IamGenerator) (svc : Client) : IamGenerator × Option Error :=
  let p := svc.ListRoles
  let g := forPages p (fun g role =>
    let roleID := StringValue role.RoleId
    let roleName := StringValue role.RoleName
    let g := g.append (NewSimpleResource roleID roleName "aws_iam_role" "aws"
      IamAllowEmptyValues)
    let rolePoliciesPage := svc.ListRolePolicies role.RoleName
    let g := forPages rolePoliciesPage (fun g policyName =>
      g.append (NewSimpleResource (roleName ++ ":" ++ policyName) (roleName ++ "_" ++ policyName)
        "aws_iam_role_policy" "aws" IamAllowEmptyValues)) g
    g.logIfErr rolePoliciesPage.err) g
  (g, p.err)

/-- The environment of `InitResources`: the method `g.generateConfig()` of the
embedded `AWSService` (declared outside this file) and the constructor
`iam.New`, both taken as given. -/
structure Env (Config : Type) where
  generateConfig : Except Error Config
  New : Config → Client

/-- The method `InitResources`: the generator afterwards and the returned error. -/
def InitResources {Config : Type} (env : Env Config) (g : IamGenerator) :
    IamGenerator × Option Error :=
  match env.generateConfig with
  | .error e => (g, some e)
  | .ok config =>
    let svc := env.New config
    let g : IamGenerator := { g with Resources := [] }
    let (g, err) := getUsers g svc
    let g := g.logIfErr err
    let (g, err) := getGroups g svc
    let g := g.logIfErr err
    let (g, err) := getPolicies g svc
    let g := g.logIfErr err
    let (g, err) := getRoles g svc
    let g := g.logIfErr err
    (g, none)

/-! ## The formatter -/

/-- The format `fmt.Sprintf` is called with: the policy text between the
heredoc markers. -/
def heredoc (policy : String) : String := "<<POLICY\n" ++ policy ++ "\nPOLICY"

/-- The index expression `m[key]` through a map reference; the nil map reads
as empty. -/
def mapIndex (heap : Heap) (ref : Option Nat) (key : String) : Option Value :=
  match ref with
  | none => none
  | some a => heap a key

/-- The type assertion `x.(string)`: `none` is the run-time panic on a value
that is not a string. -/
def assertString : Option Value → Option String
  | some (.str s) => some s
  | _ => none

/-- The assignment `m[key] = v` through a map reference: the map object is
updated in place; `none` is the run-time panic on the nil map. -/
def mapAssign (heap : Heap) (ref : Option Nat) (key : String) (v : Value) : Option Heap :=
  match ref with
  | none => none
  | some a => some (fun b => if b = a then (fun k => if k = key then some v else heap a k)
      else heap b)

/-- The four type tags of the first branch of `PostConvertHook`. -/
def PolicyTyped (t : String) : Prop :=
  t = "aws_iam_policy" ∨ t = "aws_iam_user_policy" ∨ t = "aws_iam_group_policy" ∨
    t = "aws_iam_role_policy"

instance (t : String) : Decidable (PolicyTyped t) := by
  unfold PolicyTyped; infer_instance

/-- The body of the loop of `PostConvertHook` at index `i`, where `resource` is
the loop variable (a copy of the struct `Resources[i]`).  The first branch
writes through the copy, the second through `Resources[i]`; `none` is a
run-time panic. -/
def hookBody (Resources : List Resource) (heap : Heap) (i : Nat) (resource : Resource) :
    Option Heap :=
  if PolicyTyped resource.InstanceType then
    (assertString (mapIndex heap resource.Item "policy")).bind fun policy =>
      mapAssign heap resource.Item "policy" (.str (heredoc policy))
  else if resource.InstanceType = "aws_iam_role" then
    (assertString (mapIndex heap resource.Item "assume_role_policy")).bind fun policy =>
      (Resources.get? i).bind fun stored =>
        mapAssign heap stored.Item "assume_role_policy" (.str (heredoc policy))
  else some heap

/-- The loop `for i, resource := range g.Resources` over the remaining
(index, copy) pairs. -/
def hookLoop (Resources : List Resource) : List (Nat × Resource) → Heap → Option Heap
  | [], heap => some heap
  | (i, resource) :: rest, heap => (hookBody Resources heap i resource).bind (hookLoop Resources rest)

/-- How a call ends: with a run-time panic, or by returning an error value,
leaving the generator and the heap in some state. -/
inductive Outcome where
  | panic
  | returned (err : Option Error) (g : IamGenerator) (heap : Heap)

/-- The method `PostConvertHook`. -/
def PostConvertHook (g : IamGenerator) (heap : Heap) : Outcome :=
  match hookLoop g.Resources g.Resources.enum heap with
  | none => .panic
  | some heap => .returned none g heap

/-! ## Collector states -/

/-- The map without keys. -/
def emptyItem : ItemMap := fun _ => none

/-- The Go structs of a sequence of records whose map objects are laid out
from address `k` on, one object per record. -/
def allocFrom (k : Nat) : List Record → List Resource
  | [] => []
  | r :: rs => r.withItem (r.Item.map fun _ => k) :: allocFrom (k + 1) rs

/-- The heap holding the map object of the `a`-th record at address `a`. -/
def heapOf (rs : List Record) : Heap := fun a =>
  match rs.get? a with
  | some r => r.Item.getD emptyItem
  | none => emptyItem

/-- The records stored in `g.Resources`, each with the contents of the map its
`Item` field refers to. -/
def stored (g : IamGenerator) (heap : Heap) : List Record :=
  g.Resources.map fun r => r.withItem (r.Item.map heap)

/-- The attribute `key` of a record: `none` when the map is nil or lacks the
key. -/
def attr (r : Record) (key : String) : Option Value :=
  r.Item.bind fun m => m key

/-! ## The documented output, kind by kind -/

/-- The items of a listing in page order, then item order. -/
def Paginator.items {α : Type} (p : Paginator α) : List α := p.pages.flatten

/-- The character-wise reading of "every occurrence of `@` removed". -/
def dropAt (s : String) : String := ⟨s.data.filter fun c => c ≠ '@'⟩

/-- The record of an inline user policy: id `user:policy`, name `user_policy`
without `@`. -/
def userPolicyRecord (userName : Option String) (policy : String) : Resource :=
  { ID := StringValue userName ++ ":" ++ policy,
    ResourceName := dropAt (StringValue userName ++ "_" ++ policy),
    InstanceType := "aws_iam_user_policy", Provider := "aws", Attributes := [],
    AllowEmptyValues := ["tags."], Item := none }

/-- The record of a user: id the user name, name the user id. -/
def userRecord (user : User) : Resource :=
  { ID := StringValue user.UserName, ResourceName := StringValue user.UserId,
    InstanceType := "aws_iam_user", Provider := "aws",
    Attributes := [("force_destroy", "false")], AllowEmptyValues := ["tags."], Item := none }

/-- The inline policy records of one user, from the pages its sub-listing
delivered. -/
def userPolicyRecords (svc : Client) (userName : Option String) : List Resource :=
  (svc.ListUserPolicies userName).items.map (userPolicyRecord userName)

/-- A user record directly followed by that user's inline policy records. -/
def userBlock (svc : Client) (user : User) : List Resource :=
  userRecord user :: userPolicyRecords svc user.UserName

/-- The records derived from users. -/
def userRecords (svc : Client) : List Resource := svc.ListUsers.items.flatMap (userBlock svc)

/-- The record of a group. -/
def groupRecord (group : Group) : Resource :=
  { ID := StringValue group.GroupName, ResourceName := StringValue group.GroupName,
    InstanceType := "aws_iam_group", Provider := "aws", Attributes := [],
    AllowEmptyValues := ["tags."], Item := none }

/-- The membership record of a group. -/
def groupMembershipRecord (group : Group) : Resource :=
  { ID := StringValue group.GroupName, ResourceName := StringValue group.GroupName,
    InstanceType := "aws_iam_group_membership", Provider := "aws",
    Attributes := [("group", StringValue group.GroupName), ("name", StringValue group.GroupName)],
    AllowEmptyValues := ["tags.", "users."], Item := none }

/-- The record of an inline group policy: id `group:policy`, name `group_policy`. -/
def groupPolicyRecord (groupName : Option String) (policy : String) : Resource :=
  { ID := StringValue groupName ++ ":" ++ policy,
    ResourceName := StringValue groupName ++ "_" ++ policy,
    InstanceType := "aws_iam_group_policy", Provider := "aws", Attributes := [],
    AllowEmptyValues := ["tags."], Item := none }

/-- A group record, its membership record, then the group's inline policy
records. -/
def groupBlock (svc : Client) (group : Group) : List Resource :=
  groupRecord group :: groupMembershipRecord group ::
    (svc.ListGroupPolicies group.GroupName).items.map (groupPolicyRecord group.GroupName)

/-- The records derived from groups. -/
def groupRecords (svc : Client) : List Resource := svc.ListGroups.items.flatMap (groupBlock svc)

/-- The attachment record of a managed policy. -/
def policyAttachmentRecord (policy : Policy) : Resource :=
  { ID := StringValue policy.Arn, ResourceName := StringValue policy.PolicyName,
    InstanceType := "aws_iam_policy_attachment", Provider := "aws",
    Attributes := [("policy_arn", StringValue policy.Arn),
      ("name", StringValue policy.PolicyName)],
    AllowEmptyValues := ["tags."], Item := none }

/-- The record of a managed policy. -/
def policyRecord (policy : Policy) : Resource :=
  { ID := StringValue policy.Arn, ResourceName := StringValue policy.PolicyName,
    InstanceType := "aws_iam_policy", Provider := "aws", Attributes := [],
    AllowEmptyValues := ["tags."], Item := none }

/-- The attachment record of a policy directly followed by its policy record. -/
def policyBlock (policy : Policy) : List Resource :=
  [policyAttachmentRecord policy, policyRecord policy]

/-- The records derived from the locally scoped policies. -/
def policyRecords (svc : Client) : List Resource :=
  (svc.ListPolicies "Local").items.flatMap policyBlock

/-- The record of a role: id the role id, name the role name. -/
def roleRecord (role : Role) : Resource :=
  { ID := StringValue role.RoleId, ResourceName := StringValue role.RoleName,
    InstanceType := "aws_iam_role", Provider := "aws", Attributes := [],
    AllowEmptyValues := ["tags."], Item := none }

/-- The record of an inline role policy: id `role:policy`, name `role_policy`. -/
def rolePolicyRecord (roleName : Option String) (policy : String) : Resource :=
  { ID := StringValue roleName ++ ":" ++ policy,
    ResourceName := StringValue roleName ++ "_" ++ policy,
    InstanceType := "aws_iam_role_policy", Provider := "aws", Attributes := [],
    AllowEmptyValues := ["tags."], Item := none }

/-- A role record directly followed by that role's inline policy records. -/
def roleBlock (svc : Client) (role : Role) : List Resource :=
  roleRecord role ::
    (svc.ListRolePolicies role.RoleName).items.map (rolePolicyRecord role.RoleName)

/-- The records derived from roles. -/
def roleRecords (svc : Client) : List Resource := svc.ListRoles.items.flatMap (roleBlock svc)

/-- The errors of the inline-policy sub-listings of the listed users, in
order. -/
def userSubErrors (svc : Client) : List Error :=
  svc.ListUsers.items.flatMap fun user => (svc.ListUserPolicies user.UserName).err.toList

/-- The errors of the inline-policy sub-listings of the listed groups. -/
def groupSubErrors (svc : Client) : List Error :=
  svc.ListGroups.items.flatMap fun group => (svc.ListGroupPolicies group.GroupName).err.toList

/-- The errors of the inline-policy sub-listings of the listed roles. -/
def roleSubErrors (svc : Client) : List Error :=
  svc.ListRoles.items.flatMap fun role => (svc.ListRolePolicies role.RoleName).err.toList

/-! ## Concrete clients -/

/-- A client of which every listing fails after its first page: one user, one
group, one policy and one role, each parent with one inline policy. -/
def failingClient : Client :=
  { ListUsers := ⟨[[⟨some "ann", some "AID1"⟩]], some "users: throttled"⟩
    ListUserPolicies := fun _ => ⟨[["read"]], some "user policies: denied"⟩
    ListGroupsForUser := fun _ => ⟨[], none⟩
    ListGroups := ⟨[[⟨some "ops"⟩]], some "groups: throttled"⟩
    ListGroupPolicies := fun _ => ⟨[["deploy"]], some "group policies: denied"⟩
    ListPolicies := fun _ => ⟨[[⟨some "audit", some "arn:aws:iam::1:policy/audit"⟩]],
      some "policies: throttled"⟩
    ListRoles := ⟨[[⟨some "RID1", some "ci"⟩]], some "roles: throttled"⟩
    ListRolePolicies := fun _ => ⟨[["push"]], some "role policies: denied"⟩ }

/-- An environment whose configuration succeeds and yields `failingClient`. -/
def failingEnv : Env Unit := { generateConfig := .ok (), New := fun _ => failingClient }

/-- The generator before a pass, holding a stale record. -/
def staleGenerator : IamGenerator :=
  { Resources := [NewSimpleResource "old" "old" "aws_iam_user" "aws" []], Log := [] }

/-- Every list operation issued during a pass ends without error: the four
top-level listings and the inline-policy sub-listing of every listed parent. -/
def AllListingsSucceed (svc : Client) : Prop :=
  svc.ListUsers.err = none ∧ svc.ListGroups.err = none ∧
  (svc.ListPolicies "Local").err = none ∧ svc.ListRoles.err = none ∧
  (∀ user ∈ svc.ListUsers.items, (svc.ListUserPolicies user.UserName).err = none) ∧
  (∀ group ∈ svc.ListGroups.items, (svc.ListGroupPolicies group.GroupName).err = none) ∧
  (∀ role ∈ svc.ListRoles.items, (svc.ListRolePolicies role.RoleName).err = none)

instance (svc : Client) : Decidable (AllListingsSucceed svc) := by
  unfold AllListingsSucceed; infer_instance

/-- The number of inline policy names listed for the users, groups and roles. -/
def inlinePolicyCount (svc : Client) : Nat :=
  (svc.ListUsers.items.map fun user => (svc.ListUserPolicies user.UserName).items.length).sum +
  (svc.ListGroups.items.map fun group =>
    (svc.ListGroupPolicies group.GroupName).items.length).sum +
  (svc.ListRoles.items.map fun role => (svc.ListRolePolicies role.RoleName).items.length).sum

/-- The number of items returned by the list operations: listed users, groups,
policies and roles, and the inline policy names listed for each user, group
and role. -/
def listedItemCount (svc : Client) : Nat :=
  svc.ListUsers.items.length + svc.ListGroups.items.length +
  (svc.ListPolicies "Local").items.length + svc.ListRoles.items.length +
  inlinePolicyCount svc

/-- A client that lists one group and nothing else, without errors. -/
def oneGroupClient : Client :=
  { ListUsers := ⟨[], none⟩
    ListUserPolicies := fun _ => ⟨[], none⟩
    ListGroupsForUser := fun _ => ⟨[], none⟩
    ListGroups := ⟨[[⟨some "ops"⟩]], none⟩
    ListGroupPolicies := fun _ => ⟨[], none⟩
    ListPolicies := fun _ => ⟨[], none⟩
    ListRoles := ⟨[], none⟩
    ListRolePolicies := fun _ => ⟨[], none⟩ }

/-- An environment whose configuration succeeds and yields `oneGroupClient`. -/
def oneGroupEnv : Env Unit := { generateConfig := .ok (), New := fun _ => oneGroupClient }

/-- A client without errors: two users over two pages (the first with two
inline policies), one group with one inline policy, one policy, one role with
one inline policy. -/
def fixtureClient : Client :=
  { ListUsers := ⟨[[⟨some "ann@corp", some "AID1"⟩], [⟨some "bob", some "AID2"⟩]], none⟩
    ListUserPolicies := fun n => if n = some "ann@corp" then ⟨[["read"], ["write"]], none⟩
      else ⟨[], none⟩
    ListGroupsForUser := fun _ => ⟨[], none⟩
    ListGroups := ⟨[[⟨some "ops"⟩]], none⟩
    ListGroupPolicies := fun _ => ⟨[["deploy"]], none⟩
    ListPolicies := fun _ => ⟨[[⟨some "audit", some "arn:aws:iam::1:policy/audit"⟩]], none⟩
    ListRoles := ⟨[[⟨some "RID1", some "ci"⟩]], none⟩
    ListRolePolicies := fun _ => ⟨[["push"]], none⟩ }

/-- An environment whose configuration succeeds and yields `fixtureClient`. -/
def fixtureEnv : Env Unit := { generateConfig := .ok (), New := fun _ => fixtureClient }

/-- The provider's listings contain no duplicates: distinct user names,
distinct group names, distinct policy ARNs, distinct role ids and role names
(nil read as the empty string), and distinct inline policy names within each
listed user, group and role. -/
def NoDuplicateListings (svc : Client) : Prop :=
  (svc.ListUsers.items.map fun user => StringValue user.UserName).Nodup ∧
  (svc.ListGroups.items.map fun group => StringValue group.GroupName).Nodup ∧
  ((svc.ListPolicies "Local").items.map fun policy => StringValue policy.Arn).Nodup ∧
  (svc.ListRoles.items.map fun role => StringValue role.RoleId).Nodup ∧
  (svc.ListRoles.items.map fun role => StringValue role.RoleName).Nodup ∧
  (∀ user ∈ svc.ListUsers.items, (svc.ListUserPolicies user.UserName).items.Nodup) ∧
  (∀ group ∈ svc.ListGroups.items, (svc.ListGroupPolicies group.GroupName).items.Nodup) ∧
  (∀ role ∈ svc.ListRoles.items, (svc.ListRolePolicies role.RoleName).items.Nodup)

instance (svc : Client) : Decidable (NoDuplicateListings svc) := by
  unfold NoDuplicateListings; infer_instance

/-- No listed user, group or role name contains a colon. -/
def ColonFreeParents (svc : Client) : Prop :=
  (∀ user ∈ svc.ListUsers.items, ':' ∉ (StringValue user.UserName).data) ∧
  (∀ group ∈ svc.ListGroups.items, ':' ∉ (StringValue group.GroupName).data) ∧
  (∀ role ∈ svc.ListRoles.items, ':' ∉ (StringValue role.RoleName).data)

instance (svc : Client) : Decidable (ColonFreeParents svc) := by
  unfold ColonFreeParents; infer_instance

/-- Two records do not clash: if they carry the same resource-type tag, their
ids differ. -/
def DistinctIfSameType (a b : Resource) : Prop :=
  a.InstanceType = b.InstanceType → a.ID ≠ b.ID

/-- A client without errors or duplicates listing the roles `a` (inline policy
`b:c`) and `a:b` (inline policy `c`). -/
def colonClient : Client :=
  { ListUsers := ⟨[], none⟩
    ListUserPolicies := fun _ => ⟨[], none⟩
    ListGroupsForUser := fun _ => ⟨[], none⟩
    ListGroups := ⟨[], none⟩
    ListGroupPolicies := fun _ => ⟨[], none⟩
    ListPolicies := fun _ => ⟨[], none⟩
    ListRoles := ⟨[[⟨some "RID1", some "a"⟩, ⟨some "RID2", some "a:b"⟩]], none⟩
    ListRolePolicies := fun n => if n = some "a" then ⟨[["b:c"]], none⟩ else ⟨[["c"]], none⟩ }

/-- The map a successful loop body leaves behind for a map with a string
under `key`: the string wrapped by the heredoc markers, all other keys as
before. -/
def wrapKey (m : ItemMap) (key : String) : ItemMap := fun k =>
  if k = key then
    match m key with
    | some (.str policy) => some (.str (heredoc policy))
    | v => v
  else m k

/-- The attribute map of a record of type `t` after the formatter: `policy`
wrapped on the four policy types, `assume_role_policy` wrapped on roles, the
map itself on every other type. -/
def formatted (t : String) (m : ItemMap) : ItemMap :=
  if PolicyTyped t then wrapKey m "policy"
  else if t = "aws_iam_role" then wrapKey m "assume_role_policy"
  else m

/-- Whether an indexed value is a string. -/
def isStr : Option Value → Bool
  | some (.str _) => true
  | _ => false

/-- A record on which the loop body does not panic: a record of one of the
four policy types has a string under `policy`, a role has a string under
`assume_role_policy`. -/
def ReadyRecord (heap : Heap) (r : Resource) : Prop :=
  (PolicyTyped r.InstanceType → isStr (mapIndex heap r.Item "policy") = true) ∧
  (r.InstanceType = "aws_iam_role" →
    isStr (mapIndex heap r.Item "assume_role_policy") = true)

instance (heap : Heap) (r : Resource) : Decidable (ReadyRecord heap r) := by
  unfold ReadyRecord; infer_instance

/-- Every stored record is ready for the formatter. -/
def HookReady (g : IamGenerator) (heap : Heap) : Prop :=
  ∀ r ∈ g.Resources, ReadyRecord heap r

instance (g : IamGenerator) (heap : Heap) : Decidable (HookReady g heap) := by
  unfold HookReady; infer_instance

/-- Two records that each own an attribute map: a policy with a `policy` text
and a `path`, and a role with an `assume_role_policy` text. -/
def policyAndRole : List Record :=
  [{ ID := "arn:aws:iam::1:policy/audit", ResourceName := "audit",
     InstanceType := "aws_iam_policy", Provider := "aws", Attributes := [],
     AllowEmptyValues := ["tags."],
     Item := some fun k => if k = "policy" then some (.str "P") else
       if k = "path" then some (.str "/") else none },
   { ID := "RID1", ResourceName := "ci", InstanceType := "aws_iam_role", Provider := "aws",
     Attributes := [], AllowEmptyValues := ["tags."],
     Item := some fun k => if k = "assume_role_policy" then some (.str "Q") else none }]

/-- A single policy record whose attribute map has no `policy` key. -/
def policyWithoutText : List Record :=
  [{ ID := "arn:aws:iam::1:policy/audit", ResourceName := "audit",
     InstanceType := "aws_iam_policy", Provider := "aws", Attributes := [],
     AllowEmptyValues := ["tags."], Item := some fun _ => none }]

/-- A role record whose `assume_role_policy` attribute is not a string. -/
def roleWithNonString : List Record :=
  [{ ID := "RID1", ResourceName := "ci", InstanceType := "aws_iam_role", Provider := "aws",
     Attributes := [], AllowEmptyValues := ["tags."],
     Item := some fun k => if k = "assume_role_policy" then some (.other 0) else none }]

/-- A user record that carries a `policy` attribute, followed by a policy
record with a `policy` and a `path` attribute. -/
def userAndPolicy : List Record :=
  [{ ID := "ann", ResourceName := "AID1", InstanceType := "aws_iam_user", Provider := "aws",
     Attributes := [("force_destroy", "false")], AllowEmptyValues := ["tags."],
     Item := some fun k => if k = "policy" then some (.str "U") else none },
   { ID := "arn:aws:iam::1:policy/audit", ResourceName := "audit",
     InstanceType := "aws_iam_policy", Provider := "aws", Attributes := [],
     AllowEmptyValues := ["tags."],
     Item := some fun k => if k = "policy" then some (.str "P") else
       if k = "path" then some (.str "/") else none }]

/-- An environment whose configuration succeeds and yields `colonClient`. -/
def colonEnv : Env Unit := { generateConfig := .ok (), New := fun _ => colonClient }

/-- No two records of `g.Resources` share an attribute map: of two structs at
different positions, the earlier has the nil map or refers to another map
object than the later. -/
def OwnMaps (g : IamGenerator) : Prop :=
  g.Resources.Pairwise fun x y => x.Item = none ∨ x.Item ≠ y.Item

instance (g : IamGenerator) : Decidable (OwnMaps g) := by
  unfold OwnMaps; infer_instance

/-- The records stored after `PostConvertHook`, `none` when it panics. -/
def hookResult (g : IamGenerator) (heap : Heap) : Option (List Record) :=
  match PostConvertHook g heap with
  | .panic => none
  | .returned _ g2 heap2 => some (stored g2 heap2)

/-- A heap whose map object at address 0 has the string `P` under `policy`. -/
def oneMapHeap : Heap := fun a =>
  if a = 0 then fun k => if k = "policy" then some (.str "P") else none else emptyItem

/-- Two policy structs whose `Item` fields refer to the same map object. -/
def twoPoliciesOneMap : List Resource :=
  [{ ID := "arn:aws:iam::1:policy/audit", ResourceName := "audit",
     InstanceType := "aws_iam_policy", Provider := "aws", Attributes := [],
     AllowEmptyValues := ["tags."], Item := some 0 },
   { ID := "arn:aws:iam::1:policy/audit2", ResourceName := "audit2",
     InstanceType := "aws_iam_policy", Provider := "aws", Attributes := [],
     AllowEmptyValues := ["tags."], Item := some 0 }]

/-- A user struct and a policy struct whose `Item` fields refer to the same
map object. -/
def userAndPolicyOneMap : List Resource :=
  [{ ID := "ann", ResourceName := "AID1", InstanceType := "aws_iam_user", Provider := "aws",
     Attributes := [("force_destroy", "false")], AllowEmptyValues := ["tags."],
     Item := some 0 },
   { ID := "arn:aws:iam::1:policy/audit", ResourceName := "audit",
     InstanceType := "aws_iam_policy", Provider := "aws", Attributes := [],
     AllowEmptyValues := ["tags."], Item := some 0 }]

/-! ## Lemmas on the enumeration loops -/

theorem append_eq (g : IamGenerator) (r : Resource) :
    g.append r = ⟨g.Resources ++ [r], g.Log⟩ := rfl

theorem logIfErr_eq (g : IamGenerator) (e : Option Error) :
    g.logIfErr e = ⟨g.Resources, g.Log ++ e.toList⟩ := by
  cases e <;> simp [IamGenerator.logIfErr, IamGenerator.logPrintln]

/-- A loop whose body appends `recs x` and logs `logs x` for each item `x`
appends and logs the concatenation over the items. -/
theorem foldl_emit {α : Type} (body : IamGenerator → α → IamGenerator)
    (recs : α → List Resource) (logs : α → List Error)
    (hbody : ∀ g x, body g x = ⟨g.Resources ++ recs x, g.Log ++ logs x⟩)
    (l : List α) (g : IamGenerator) :
    l.foldl body g = ⟨g.Resources ++ l.flatMap recs, g.Log ++ l.flatMap logs⟩ := by
  induction l generalizing g with
  | nil => simp
  | cons x xs ih => simp [List.foldl_cons, ih, hbody, List.flatMap_cons, List.append_assoc]

theorem flatMap_flatten {α β : Type} (f : α → List β) (L : List (List α)) :
    L.flatten.flatMap f = L.flatMap fun page => page.flatMap f := by
  induction L with
  | nil => simp
  | cons l ls ih => simp [List.flatMap_append, List.flatMap_cons, ih]

/-- The paginated loop with an appending and logging body. -/
theorem forPages_emit {α : Type} (p : Paginator α) (body : IamGenerator → α → IamGenerator)
    (recs : α → List Resource) (logs : α → List Error)
    (hbody : ∀ g x, body g x = ⟨g.Resources ++ recs x, g.Log ++ logs x⟩) (g : IamGenerator) :
    forPages p body g = ⟨g.Resources ++ p.items.flatMap recs, g.Log ++ p.items.flatMap logs⟩ := by
  unfold forPages Paginator.items
  rw [foldl_emit (fun st page => page.foldl body st) (fun page => page.flatMap recs)
    (fun page => page.flatMap logs) (fun g page => foldl_emit body recs logs hbody page g)]
  rw [flatMap_flatten, flatMap_flatten]

theorem flatMap_nil_fn {α β : Type} (l : List α) : l.flatMap (fun _ => ([] : List β)) = [] := by
  induction l with
  | nil => rfl
  | cons x xs ih => simp [List.flatMap_cons, ih]

theorem flatMap_single {α β : Type} (f : α → β) (l : List α) :
    l.flatMap (fun x => [f x]) = l.map f := by
  induction l with
  | nil => rfl
  | cons x xs ih => simp [List.flatMap_cons, ih]

theorem replaceScan_at (l : List Char) :
    replaceScan ['@'] [] 0 l = l.filter fun c => c ≠ '@' := by
  induction l with
  | nil => rfl
  | cons c cs ih =>
    by_cases h : c = '@'
    · subst h; simp [replaceScan, ih]
    · simp [replaceScan, ih, h, List.isPrefixOf, Ne.symm h]

theorem stringsReplaceAll_at (s : String) : stringsReplaceAll s "@" "" = dropAt s := by
  unfold stringsReplaceAll dropAt
  have h1 : ("@" : String).data = ['@'] := rfl
  have h2 : ("" : String).data = [] := rfl
  rw [h1, h2, replaceScan_at]

theorem getUserPolices_eq (g : IamGenerator) (svc : Client) (userName : Option String) :
    getUserPolices g svc userName =
      (⟨g.Resources ++ userPolicyRecords svc userName, g.Log⟩,
        (svc.ListUserPolicies userName).err) := by
  unfold getUserPolices
  simp only []
  rw [forPages_emit _ _ (fun policy => [userPolicyRecord userName policy]) (fun _ => [])]
  · simp [flatMap_nil_fn, flatMap_single, userPolicyRecords]
  · intro g x
    simp [append_eq, NewSimpleResource, NewResource, userPolicyRecord, stringsReplaceAll_at,
      IamAllowEmptyValues]

theorem getUsers_eq (g : IamGenerator) (svc : Client) :
    getUsers g svc =
      (⟨g.Resources ++ userRecords svc, g.Log ++ userSubErrors svc⟩, svc.ListUsers.err) := by
  unfold getUsers
  simp only []
  rw [forPages_emit _ _ (userBlock svc)
    (fun user => (svc.ListUserPolicies user.UserName).err.toList)]
  · rfl
  · intro g x
    simp [getUserPolices_eq, logIfErr_eq, append_eq, NewResource, userBlock, userRecord,
      IamAllowEmptyValues]

theorem getGroups_eq (g : IamGenerator) (svc : Client) :
    getGroups g svc =
      (⟨g.Resources ++ groupRecords svc, g.Log ++ groupSubErrors svc⟩, svc.ListGroups.err) := by
  unfold getGroups
  simp only []
  rw [forPages_emit _ _ (groupBlock svc)
    (fun group => (svc.ListGroupPolicies group.GroupName).err.toList)]
  · rfl
  · intro g x
    rw [forPages_emit _ _ (fun policy => [groupPolicyRecord x.GroupName policy]) (fun _ => [])]
    · simp [logIfErr_eq, append_eq, NewResource, NewSimpleResource, groupBlock, groupRecord,
        groupMembershipRecord, IamAllowEmptyValues, flatMap_nil_fn, flatMap_single]
    · intro g y
      simp [append_eq, NewResource, groupPolicyRecord, IamAllowEmptyValues]

theorem getPolicies_eq (g : IamGenerator) (svc : Client) :
    getPolicies g svc =
      (⟨g.Resources ++ policyRecords svc, g.Log⟩, (svc.ListPolicies "Local").err) := by
  unfold getPolicies
  simp only []
  rw [forPages_emit _ _ policyBlock (fun _ => [])]
  · simp [flatMap_nil_fn, policyRecords, PolicyScopeTypeLocal]
  · intro g x
    simp [append_eq, NewResource, NewSimpleResource, policyBlock, policyAttachmentRecord,
      policyRecord, IamAllowEmptyValues]

theorem getRoles_eq (g : IamGenerator) (svc : Client) :
    getRoles g svc =
      (⟨g.Resources ++ roleRecords svc, g.Log ++ roleSubErrors svc⟩, svc.ListRoles.err) := by
  unfold getRoles
  simp only []
  rw [forPages_emit _ _ (roleBlock svc)
    (fun role => (svc.ListRolePolicies role.RoleName).err.toList)]
  · rfl
  · intro g x
    rw [forPages_emit _ _ (fun policy => [rolePolicyRecord x.RoleName policy]) (fun _ => [])]
    · simp [logIfErr_eq, append_eq, NewSimpleResource, NewResource, roleBlock, roleRecord,
        IamAllowEmptyValues, flatMap_nil_fn, flatMap_single]
    · intro g y
      simp [append_eq, NewSimpleResource, NewResource, rolePolicyRecord, IamAllowEmptyValues]

theorem InitResources_ok {Config : Type} (env : Env Config) (g : IamGenerator) (config : Config)
    (h : env.generateConfig = .ok config) :
    InitResources env g =
      (⟨userRecords (env.New config) ++ groupRecords (env.New config) ++
          policyRecords (env.New config) ++ roleRecords (env.New config),
        g.Log ++ userSubErrors (env.New config) ++ (env.New config).ListUsers.err.toList ++
          groupSubErrors (env.New config) ++ (env.New config).ListGroups.err.toList ++
          ((env.New config).ListPolicies "Local").err.toList ++
          roleSubErrors (env.New config) ++ (env.New config).ListRoles.err.toList⟩, none) := by
  unfold InitResources
  rw [h]
  simp [getUsers_eq, getGroups_eq, getPolicies_eq, getRoles_eq, logIfErr_eq, List.append_assoc]

/-! ## Claims on the enumeration pass -/

/-- C4. Failures of list operations are never fatal: when `generateConfig`
succeeds, `InitResources` returns nil whatever the four listings report, and
the records of all four kinds are appended in the order users, groups,
policies, roles, each kind contributing what its routine appends on its own;
the top-level errors are only logged.  `InitResources` returns an error if and
only if `generateConfig` fails, and then exactly that error. -/
theorem InitResources_list_errors_not_fatal {Config : Type} (env : Env Config)
    (g : IamGenerator) :
    (∀ config, env.generateConfig = .ok config →
      (InitResources env g).2 = none ∧
      (InitResources env g).1.Resources =
        (getUsers ⟨[], []⟩ (env.New config)).1.Resources ++
        (getGroups ⟨[], []⟩ (env.New config)).1.Resources ++
        (getPolicies ⟨[], []⟩ (env.New config)).1.Resources ++
        (getRoles ⟨[], []⟩ (env.New config)).1.Resources ∧
      (∀ e, (getUsers ⟨[], []⟩ (env.New config)).2 = some e ∨
          (getGroups ⟨[], []⟩ (env.New config)).2 = some e ∨
          (getPolicies ⟨[], []⟩ (env.New config)).2 = some e ∨
          (getRoles ⟨[], []⟩ (env.New config)).2 = some e →
        e ∈ (InitResources env g).1.Log)) ∧
    ((InitResources env g).2 ≠ none ↔ ∃ e, env.generateConfig = .error e) ∧
    (∀ e, env.generateConfig = .error e → (InitResources env g).2 = some e) := by
  refine ⟨?_, ?_, ?_⟩
  · intro config h
    rw [InitResources_ok env g config h]
    refine ⟨rfl, ?_, ?_⟩
    · simp [getUsers_eq, getGroups_eq, getPolicies_eq, getRoles_eq]
    · intro e he
      simp only [getUsers_eq, getGroups_eq, getPolicies_eq, getRoles_eq] at he
      simp only [List.mem_append, Option.mem_toList, Option.mem_def]
      rcases he with he | he | he | he <;> simp [he]
  · cases h : env.generateConfig with
    | error e => simp [InitResources, h]
    | ok config => simp [InitResources_ok env g config h]
  · intro e h
    simp [InitResources, h]

/-- With every listing failing after its first page the pass still returns nil
and holds the records of all four kinds. -/
theorem InitResources_list_errors_not_fatal_witness :
    (InitResources failingEnv staleGenerator).2 = none ∧
      (InitResources failingEnv staleGenerator).1.Resources =
        (getUsers ⟨[], []⟩ failingClient).1.Resources ++
        (getGroups ⟨[], []⟩ failingClient).1.Resources ++
        (getPolicies ⟨[], []⟩ failingClient).1.Resources ++
        (getRoles ⟨[], []⟩ failingClient).1.Resources ∧
      (∀ e, (getUsers ⟨[], []⟩ failingClient).2 = some e ∨
          (getGroups ⟨[], []⟩ failingClient).2 = some e ∨
          (getPolicies ⟨[], []⟩ failingClient).2 = some e ∨
          (getRoles ⟨[], []⟩ failingClient).2 = some e →
        e ∈ (InitResources failingEnv staleGenerator).1.Log) :=
  (InitResources_list_errors_not_fatal failingEnv staleGenerator).1 () rfl

/-- C5. A failing inline-policy sub-listing affects only its own parent: in
`getRoles`, `getGroups` and `getUsers` the result holds, for every listed
parent in order, the parent's own record(s) followed by the policy records of
the pages its sub-listing delivered, whether or not that sub-listing ended in
an error; hence two clients that differ only in the errors of sub-listings
produce the same records; the sub-listing errors are logged, and the returned
error is the top-level paginator's error alone. -/
theorem sub_listing_failure_is_local (g : IamGenerator) (svc : Client) :
    ((getRoles g svc).1.Resources = g.Resources ++ svc.ListRoles.items.flatMap (fun role =>
        roleRecord role :: (svc.ListRolePolicies role.RoleName).pages.flatten.map
          (rolePolicyRecord role.RoleName)) ∧
      (getRoles g svc).1.Log = g.Log ++ svc.ListRoles.items.flatMap (fun role =>
        (svc.ListRolePolicies role.RoleName).err.toList) ∧
      (getRoles g svc).2 = svc.ListRoles.err) ∧
    ((getGroups g svc).1.Resources = g.Resources ++ svc.ListGroups.items.flatMap (fun group =>
        groupRecord group :: groupMembershipRecord group ::
          (svc.ListGroupPolicies group.GroupName).pages.flatten.map
            (groupPolicyRecord group.GroupName)) ∧
      (getGroups g svc).1.Log = g.Log ++ svc.ListGroups.items.flatMap (fun group =>
        (svc.ListGroupPolicies group.GroupName).err.toList) ∧
      (getGroups g svc).2 = svc.ListGroups.err) ∧
    ((getUsers g svc).1.Resources = g.Resources ++ svc.ListUsers.items.flatMap (fun user =>
        userRecord user :: (svc.ListUserPolicies user.UserName).pages.flatten.map
          (userPolicyRecord user.UserName)) ∧
      (getUsers g svc).1.Log = g.Log ++ svc.ListUsers.items.flatMap (fun user =>
        (svc.ListUserPolicies user.UserName).err.toList) ∧
      (getUsers g svc).2 = svc.ListUsers.err) ∧
    (∀ svc2 : Client,
      svc2.ListRoles = svc.ListRoles → svc2.ListGroups = svc.ListGroups →
      svc2.ListUsers = svc.ListUsers →
      (∀ n, (svc2.ListRolePolicies n).pages = (svc.ListRolePolicies n).pages) →
      (∀ n, (svc2.ListGroupPolicies n).pages = (svc.ListGroupPolicies n).pages) →
      (∀ n, (svc2.ListUserPolicies n).pages = (svc.ListUserPolicies n).pages) →
      (getRoles g svc2).1.Resources = (getRoles g svc).1.Resources ∧
      (getGroups g svc2).1.Resources = (getGroups g svc).1.Resources ∧
      (getUsers g svc2).1.Resources = (getUsers g svc).1.Resources) := by
  refine ⟨?_, ?_, ?_, ?_⟩
  · rw [getRoles_eq]; exact ⟨rfl, rfl, rfl⟩
  · rw [getGroups_eq]; exact ⟨rfl, rfl, rfl⟩
  · rw [getUsers_eq]; exact ⟨rfl, rfl, rfl⟩
  · intro svc2 hr hg hu hrp hgp hup
    have h1 : roleBlock svc2 = roleBlock svc := by
      funext role; simp only [roleBlock, Paginator.items, hrp]
    have h2 : groupBlock svc2 = groupBlock svc := by
      funext group; simp only [groupBlock, Paginator.items, hgp]
    have h3 : userBlock svc2 = userBlock svc := by
      funext user; simp only [userBlock, userPolicyRecords, Paginator.items, hup]
    simp only [getRoles_eq, getGroups_eq, getUsers_eq, roleRecords, groupRecords, userRecords,
      hr, hg, hu, h1, h2, h3, and_self]

/-- The records of `failingClient`, whose sub-listings all fail, are those of
the client with the same pages and no sub-listing error. -/
theorem sub_listing_failure_is_local_witness :
    (getRoles staleGenerator { failingClient with
        ListRolePolicies := fun _ => ⟨[["push"]], none⟩ }).1.Resources =
      (getRoles staleGenerator failingClient).1.Resources ∧
    (getGroups staleGenerator { failingClient with
        ListRolePolicies := fun _ => ⟨[["push"]], none⟩ }).1.Resources =
      (getGroups staleGenerator failingClient).1.Resources ∧
    (getUsers staleGenerator { failingClient with
        ListRolePolicies := fun _ => ⟨[["push"]], none⟩ }).1.Resources =
      (getUsers staleGenerator failingClient).1.Resources :=
  (sub_listing_failure_is_local staleGenerator failingClient).2.2.2
    { failingClient with ListRolePolicies := fun _ => ⟨[["push"]], none⟩ }
    rfl rfl rfl (fun _ => rfl) (fun _ => rfl) (fun _ => rfl)

/-- C8. The collector state is append-only during a pass: each of `getUsers`,
`getUserPolices`, `getGroups`, `getPolicies` and `getRoles` leaves the records
held before the call as an unchanged leading segment of `g.Resources`, for
every prior state and every client (failing listings included), so the number
of records never decreases; `InitResources` resets the slice to empty and then
only runs these routines, one after the other. -/
theorem enumeration_is_append_only {Config : Type} (env : Env Config) (g : IamGenerator)
    (svc : Client) (userName : Option String) :
    ((∃ added, (getUsers g svc).1.Resources = g.Resources ++ added) ∧
      g.Resources.length ≤ (getUsers g svc).1.Resources.length) ∧
    ((∃ added, (getUserPolices g svc userName).1.Resources = g.Resources ++ added) ∧
      g.Resources.length ≤ (getUserPolices g svc userName).1.Resources.length) ∧
    ((∃ added, (getGroups g svc).1.Resources = g.Resources ++ added) ∧
      g.Resources.length ≤ (getGroups g svc).1.Resources.length) ∧
    ((∃ added, (getPolicies g svc).1.Resources = g.Resources ++ added) ∧
      g.Resources.length ≤ (getPolicies g svc).1.Resources.length) ∧
    ((∃ added, (getRoles g svc).1.Resources = g.Resources ++ added) ∧
      g.Resources.length ≤ (getRoles g svc).1.Resources.length) ∧
    (∀ config, env.generateConfig = .ok config →
      let client := env.New config
      let g0 : IamGenerator := { g with Resources := [] }
      let g1 := (getUsers g0 client).1.logIfErr (getUsers g0 client).2
      let g2 := (getGroups g1 client).1.logIfErr (getGroups g1 client).2
      let g3 := (getPolicies g2 client).1.logIfErr (getPolicies g2 client).2
      let g4 := (getRoles g3 client).1.logIfErr (getRoles g3 client).2
      (InitResources env g).1 = g4 ∧
        g0.Resources.length ≤ g1.Resources.length ∧
        g1.Resources.length ≤ g2.Resources.length ∧
        g2.Resources.length ≤ g3.Resources.length ∧
        g3.Resources.length ≤ g4.Resources.length) := by
  refine ⟨⟨⟨userRecords svc, ?_⟩, ?_⟩, ⟨⟨userPolicyRecords svc userName, ?_⟩, ?_⟩,
    ⟨⟨groupRecords svc, ?_⟩, ?_⟩, ⟨⟨policyRecords svc, ?_⟩, ?_⟩, ⟨⟨roleRecords svc, ?_⟩, ?_⟩, ?_⟩
  · rw [getUsers_eq]
  · simp [getUsers_eq]
  · rw [getUserPolices_eq]
  · simp [getUserPolices_eq]
  · rw [getGroups_eq]
  · simp [getGroups_eq]
  · rw [getPolicies_eq]
  · simp [getPolicies_eq]
  · rw [getRoles_eq]
  · simp [getRoles_eq]
  · intro config h
    simp only []
    rw [InitResources_ok env g config h]
    simp [getUsers_eq, getGroups_eq, getPolicies_eq, getRoles_eq, logIfErr_eq,
      List.append_assoc]

/-- The pass over `failingClient`, started from a generator holding a stale
record, is the reset followed by the four routines, and the number of records
grows from 0 to 2, 5, 7 and 9. -/
theorem enumeration_is_append_only_witness :
    let g0 : IamGenerator := { staleGenerator with Resources := [] }
    let g1 := (getUsers g0 failingClient).1.logIfErr (getUsers g0 failingClient).2
    let g2 := (getGroups g1 failingClient).1.logIfErr (getGroups g1 failingClient).2
    let g3 := (getPolicies g2 failingClient).1.logIfErr (getPolicies g2 failingClient).2
    let g4 := (getRoles g3 failingClient).1.logIfErr (getRoles g3 failingClient).2
    ((InitResources failingEnv staleGenerator).1 = g4 ∧
      g0.Resources.length ≤ g1.Resources.length ∧
      g1.Resources.length ≤ g2.Resources.length ∧
      g2.Resources.length ≤ g3.Resources.length ∧
      g3.Resources.length ≤ g4.Resources.length) ∧
    [g0.Resources.length, g1.Resources.length, g2.Resources.length, g3.Resources.length,
      g4.Resources.length] = [0, 2, 5, 7, 9] :=
  ⟨(enumeration_is_append_only failingEnv staleGenerator failingClient none).2.2.2.2.2 () rfl,
    by decide⟩

theorem length_flatMap_cons {α β : Type} (hd : α → β) (tl : α → List β) (l : List α) :
    (l.flatMap fun x => hd x :: tl x).length =
      l.length + (l.map fun x => (tl x).length).sum := by
  induction l with
  | nil => rfl
  | cons x xs ih => simp [List.flatMap_cons, ih]; omega

theorem length_flatMap_pair {α β : Type} (a b : α → β) (tl : α → List β) (l : List α) :
    (l.flatMap fun x => a x :: b x :: tl x).length =
      2 * l.length + (l.map fun x => (tl x).length).sum := by
  induction l with
  | nil => rfl
  | cons x xs ih => simp [List.flatMap_cons, ih]; omega

theorem length_userRecords (svc : Client) :
    (userRecords svc).length = svc.ListUsers.items.length +
      (svc.ListUsers.items.map fun user =>
        (svc.ListUserPolicies user.UserName).items.length).sum := by
  unfold userRecords
  rw [show userBlock svc = (fun user => userRecord user :: userPolicyRecords svc user.UserName)
    from rfl, length_flatMap_cons]
  simp [userPolicyRecords]

theorem length_groupRecords (svc : Client) :
    (groupRecords svc).length = 2 * svc.ListGroups.items.length +
      (svc.ListGroups.items.map fun group =>
        (svc.ListGroupPolicies group.GroupName).items.length).sum := by
  unfold groupRecords
  rw [show groupBlock svc = (fun group => groupRecord group :: groupMembershipRecord group ::
    (svc.ListGroupPolicies group.GroupName).items.map (groupPolicyRecord group.GroupName))
    from rfl, length_flatMap_pair]
  simp

theorem length_policyRecords (svc : Client) :
    (policyRecords svc).length = 2 * (svc.ListPolicies "Local").items.length := by
  unfold policyRecords
  rw [show policyBlock = (fun policy => policyAttachmentRecord policy :: policyRecord policy ::
    []) from rfl, length_flatMap_pair]
  simp

theorem length_roleRecords (svc : Client) :
    (roleRecords svc).length = svc.ListRoles.items.length +
      (svc.ListRoles.items.map fun role =>
        (svc.ListRolePolicies role.RoleName).items.length).sum := by
  unfold roleRecords
  rw [show roleBlock svc = (fun role => roleRecord role ::
    (svc.ListRolePolicies role.RoleName).items.map (rolePolicyRecord role.RoleName))
    from rfl, length_flatMap_cons]
  simp

/-- C6, as stated, fails: a client that lists a single group (all listings
succeeding) yields two records, the group and its membership, for one listed
item. -/
theorem one_record_per_item_fails :
    AllListingsSucceed oneGroupClient ∧ listedItemCount oneGroupClient = 1 ∧
      (InitResources oneGroupEnv ⟨[], []⟩).1.Resources =
        [groupRecord ⟨some "ops"⟩, groupMembershipRecord ⟨some "ops"⟩] ∧
      (InitResources oneGroupEnv ⟨[], []⟩).1.Resources.length ≠ listedItemCount oneGroupClient := by
  decide

/-- C6, amended. For every client whose list operations all succeed, the
number of records after `InitResources` is the number of listed users, plus
twice the number of listed groups, plus twice the number of listed policies,
plus the number of listed roles, plus the number of inline policy names listed
for the users, groups and roles: a user and a role contribute one record of
their own, a group and a policy two. -/
theorem record_count_after_InitResources {Config : Type} (env : Env Config) (g : IamGenerator)
    (config : Config) (hcfg : env.generateConfig = .ok config)
    (_hok : AllListingsSucceed (env.New config)) :
    (InitResources env g).1.Resources.length =
      (env.New config).ListUsers.items.length + 2 * (env.New config).ListGroups.items.length +
      2 * ((env.New config).ListPolicies "Local").items.length +
      (env.New config).ListRoles.items.length + inlinePolicyCount (env.New config) := by
  rw [InitResources_ok env g config hcfg]
  simp only [List.length_append, length_userRecords, length_groupRecords, length_policyRecords,
    length_roleRecords, inlinePolicyCount]
  omega

/-- The fixture client (2 users, 1 group, 1 policy, 1 role, 4 inline policy
names) yields 2 + 2 + 2 + 1 + 4 = 11 records. -/
theorem record_count_after_InitResources_witness :
    (InitResources fixtureEnv staleGenerator).1.Resources.length =
      fixtureClient.ListUsers.items.length + 2 * fixtureClient.ListGroups.items.length +
      2 * (fixtureClient.ListPolicies "Local").items.length +
      fixtureClient.ListRoles.items.length + inlinePolicyCount fixtureClient :=
  record_count_after_InitResources fixtureEnv staleGenerator () rfl (by decide)

/-- C9. The output order is fixed: after a pass `g.Resources` is, whatever it
held before, the records derived from users, then groups, then policies, then
roles; within a kind the items follow page order then item order; a user record
is directly followed by that user's inline policy records, a group record by
its membership record and then the group's inline policy records, a policy's
attachment record by its policy record, a role record by that role's inline
policy records. -/
theorem InitResources_output_order {Config : Type} (env : Env Config) (g : IamGenerator)
    (config : Config) (hcfg : env.generateConfig = .ok config) :
    (InitResources env g).1.Resources =
      ((env.New config).ListUsers.pages.flatten.flatMap fun user =>
        userRecord user ::
          ((env.New config).ListUserPolicies user.UserName).pages.flatten.map
            (userPolicyRecord user.UserName)) ++
      ((env.New config).ListGroups.pages.flatten.flatMap fun group =>
        groupRecord group :: groupMembershipRecord group ::
          ((env.New config).ListGroupPolicies group.GroupName).pages.flatten.map
            (groupPolicyRecord group.GroupName)) ++
      (((env.New config).ListPolicies "Local").pages.flatten.flatMap fun policy =>
        [policyAttachmentRecord policy, policyRecord policy]) ++
      ((env.New config).ListRoles.pages.flatten.flatMap fun role =>
        roleRecord role ::
          ((env.New config).ListRolePolicies role.RoleName).pages.flatten.map
            (rolePolicyRecord role.RoleName)) := by
  rw [InitResources_ok env g config hcfg]
  rfl

/-- The pass over the fixture client, started from a generator holding a stale
record, yields the eleven records in the documented order. -/
theorem InitResources_output_order_witness :
    (InitResources fixtureEnv staleGenerator).1.Resources.map
        (fun r => (r.InstanceType, r.ID)) =
      [("aws_iam_user", "ann@corp"), ("aws_iam_user_policy", "ann@corp:read"),
        ("aws_iam_user_policy", "ann@corp:write"), ("aws_iam_user", "bob"),
        ("aws_iam_group", "ops"), ("aws_iam_group_membership", "ops"),
        ("aws_iam_group_policy", "ops:deploy"),
        ("aws_iam_policy_attachment", "arn:aws:iam::1:policy/audit"),
        ("aws_iam_policy", "arn:aws:iam::1:policy/audit"),
        ("aws_iam_role", "RID1"), ("aws_iam_role_policy", "ci:push")] :=
  (congrArg (List.map fun r => (r.InstanceType, r.ID))
    (InitResources_output_order fixtureEnv staleGenerator () rfl)).trans (by decide)

/-! ## Ids and names -/

theorem dropAt_data (s : String) : (dropAt s).data = s.data.filter fun c => c ≠ '@' := rfl

theorem dropAt_append (s t : String) : dropAt (s ++ t) = dropAt s ++ dropAt t := by
  apply String.ext
  simp [dropAt_data, String.data_append]

/-- Two texts with the same characters other than `@` that agree once a colon
and a tail are appended are equal, and so are the tails. -/
theorem colon_join_inj_of_filter (a b p q : List Char)
    (hf : (a.filter fun c => c ≠ '@') = b.filter fun c => c ≠ '@')
    (h : a ++ ':' :: p = b ++ ':' :: q) : a = b ∧ p = q := by
  induction a generalizing b with
  | nil =>
    cases b with
    | nil => simpa using h
    | cons y b2 =>
      simp only [List.nil_append, List.cons_append, List.cons.injEq] at h
      obtain ⟨hy, -⟩ := h
      subst hy
      simp at hf
  | cons x a2 ih =>
    cases b with
    | nil =>
      simp only [List.nil_append, List.cons_append, List.cons.injEq] at h
      obtain ⟨hx, -⟩ := h
      subst hx
      simp at hf
    | cons y b2 =>
      simp only [List.cons_append, List.cons.injEq] at h
      obtain ⟨hxy, h2⟩ := h
      subst hxy
      have hf2 : (a2.filter fun c => c ≠ '@') = b2.filter fun c => c ≠ '@' := by
        by_cases hx : x = '@'
        · simpa [hx] using hf
        · simpa [List.filter_cons, hx] using hf
      obtain ⟨h3, h4⟩ := ih b2 hf2 h2
      exact ⟨by rw [h3], h4⟩

/-- Two colon-free texts that agree once a colon and a tail are appended are
equal, and so are the tails. -/
theorem colon_join_inj (a b p q : List Char) (ha : ':' ∉ a) (hb : ':' ∉ b)
    (h : a ++ ':' :: p = b ++ ':' :: q) : a = b ∧ p = q := by
  induction a generalizing b with
  | nil =>
    cases b with
    | nil => simpa using h
    | cons y b2 =>
      simp only [List.nil_append, List.cons_append, List.cons.injEq] at h
      exact absurd (h.1 ▸ List.mem_cons_self _ _) hb
  | cons x a2 ih =>
    cases b with
    | nil =>
      simp only [List.nil_append, List.cons_append, List.cons.injEq] at h
      exact absurd (h.1 ▸ List.mem_cons_self _ _) ha
    | cons y b2 =>
      simp only [List.cons_append, List.cons.injEq] at h
      obtain ⟨hxy, h2⟩ := h
      subst hxy
      obtain ⟨h3, h4⟩ := ih b2 (fun hm => ha (List.mem_cons_of_mem _ hm))
        (fun hm => hb (List.mem_cons_of_mem _ hm)) h2
      exact ⟨by rw [h3], h4⟩

theorem colon_id_data (u p : String) : (u ++ ":" ++ p).data = u.data ++ ':' :: p.data := by
  simp [String.data_append]

/-- C10. User inline-policy derivation: `getUserPolices` appends, for the user
name `u` (nil read as the empty string) and each inline policy name `p` of the
pages listed for it, in order, exactly one record of type `aws_iam_user_policy`
and provider `aws` whose id is `u:p` unchanged and whose name is `u_p` with
every `@` removed; the name never contains `@`, the id contains `@` whenever
`u` or `p` does, and two different pairs that differ only in `@` characters get
the same name but different ids. -/
theorem getUserPolices_derivation (g : IamGenerator) (svc : Client)
    (userName : Option String) :
    (getUserPolices g svc userName).1.Resources = g.Resources ++
      (svc.ListUserPolicies userName).pages.flatten.map (fun p =>
        ({ ID := StringValue userName ++ ":" ++ p,
           ResourceName := stringsReplaceAll (StringValue userName ++ "_" ++ p) "@" "",
           InstanceType := "aws_iam_user_policy", Provider := "aws", Attributes := [],
           AllowEmptyValues := ["tags."], Item := none } : Resource)) ∧
    (∀ s : String, (stringsReplaceAll s "@" "").data = s.data.filter fun c => c ≠ '@') ∧
    (∀ p : String,
      '@' ∉ (stringsReplaceAll (StringValue userName ++ "_" ++ p) "@" "").data) ∧
    (∀ p : String, '@' ∈ (StringValue userName).data ∨ '@' ∈ p.data →
      '@' ∈ (StringValue userName ++ ":" ++ p).data) ∧
    (∀ (u1 u2 : Option String) (p1 p2 : String),
      (StringValue u1, p1) ≠ (StringValue u2, p2) →
      dropAt (StringValue u1) = dropAt (StringValue u2) → dropAt p1 = dropAt p2 →
      stringsReplaceAll (StringValue u1 ++ "_" ++ p1) "@" "" =
        stringsReplaceAll (StringValue u2 ++ "_" ++ p2) "@" "" ∧
      StringValue u1 ++ ":" ++ p1 ≠ StringValue u2 ++ ":" ++ p2) := by
  refine ⟨?_, ?_, ?_, ?_, ?_⟩
  · rw [getUserPolices_eq]
    simp only [userPolicyRecords, Paginator.items]
    congr 1
    apply List.map_congr_left
    intro p _
    simp [userPolicyRecord, stringsReplaceAll_at]
  · intro s
    rw [stringsReplaceAll_at]; rfl
  · intro p
    rw [stringsReplaceAll_at, dropAt_data]
    simp [List.mem_filter]
  · intro p h
    rw [colon_id_data]
    rcases h with h | h
    · exact List.mem_append_left _ h
    · exact List.mem_append_right _ (List.mem_cons_of_mem _ h)
  · intro u1 u2 p1 p2 hne hu hp
    refine ⟨?_, ?_⟩
    · simp only [stringsReplaceAll_at, dropAt_append, hu, hp]
    · intro hid
      have hd := congrArg String.data hid
      rw [colon_id_data, colon_id_data] at hd
      obtain ⟨h1, h2⟩ := colon_join_inj_of_filter _ _ _ _
        (by simpa [dropAt_data] using congrArg String.data hu) hd
      exact hne (by rw [String.ext h1, String.ext h2])

/-- The users `a@` with policy `b` and `a` with policy `@b` get the same name
`a_b` and the different ids `a@:b` and `a:@b`. -/
theorem getUserPolices_derivation_witness :
    stringsReplaceAll (StringValue (some "a@") ++ "_" ++ "b") "@" "" =
        stringsReplaceAll (StringValue (some "a") ++ "_" ++ "@b") "@" "" ∧
      StringValue (some "a@") ++ ":" ++ "b" ≠ StringValue (some "a") ++ ":" ++ "@b" :=
  (getUserPolices_derivation staleGenerator fixtureClient (some "a@")).2.2.2.2
    (some "a@") (some "a") "b" "@b" (by decide) (by decide) (by decide)

theorem colon_id_cancel (n p q : String) (h : n ++ ":" ++ p = n ++ ":" ++ q) : p = q := by
  have hd := congrArg String.data h
  rw [colon_id_data, colon_id_data] at hd
  have := List.append_cancel_left hd
  exact String.ext (List.cons.inj this).2

theorem colon_id_ne (n1 n2 p q : String) (h1 : ':' ∉ n1.data) (h2 : ':' ∉ n2.data)
    (hne : n1 ≠ n2) : n1 ++ ":" ++ p ≠ n2 ++ ":" ++ q := by
  intro h
  have hd := congrArg String.data h
  rw [colon_id_data, colon_id_data] at hd
  exact hne (String.ext (colon_join_inj _ _ _ _ h1 h2 hd).1)

theorem pairwise_of_nodup_map {α : Type} {f : α → String} {l : List α}
    (h : (l.map f).Nodup) : l.Pairwise fun a b => f a ≠ f b :=
  List.pairwise_map.1 h

theorem userRecords_pairwise (svc : Client)
    (hn : (svc.ListUsers.items.map fun user => StringValue user.UserName).Nodup)
    (hp : ∀ user ∈ svc.ListUsers.items, (svc.ListUserPolicies user.UserName).items.Nodup)
    (hc : ∀ user ∈ svc.ListUsers.items, ':' ∉ (StringValue user.UserName).data) :
    (userRecords svc).Pairwise DistinctIfSameType := by
  unfold userRecords
  rw [List.pairwise_flatMap]
  refine ⟨fun u hu => ?_, ?_⟩
  · show List.Pairwise _ (userRecord u :: _)
    rw [List.pairwise_cons]
    refine ⟨?_, ?_⟩
    · intro r hr
      simp only [userPolicyRecords, List.mem_map] at hr
      obtain ⟨p, -, rfl⟩ := hr
      intro h
      exact absurd h (by
      dsimp only [userRecord, userPolicyRecord, groupRecord, groupMembershipRecord,
        groupPolicyRecord, policyAttachmentRecord, policyRecord, roleRecord, rolePolicyRecord]
      decide)
    · rw [userPolicyRecords, List.pairwise_map]
      exact (hp u hu).imp fun hne _ hid => hne (colon_id_cancel _ _ _ hid)
  · refine (pairwise_of_nodup_map hn).imp_of_mem ?_
    intro u1 u2 h1 h2 hne x hx y hy
    simp only [userBlock, userPolicyRecords, List.mem_cons, List.mem_map] at hx hy
    rcases hx with rfl | ⟨p, -, rfl⟩ <;> rcases hy with rfl | ⟨q, -, rfl⟩
    · exact fun _ => hne
    · exact fun h => absurd h (by
      dsimp only [userRecord, userPolicyRecord, groupRecord, groupMembershipRecord,
        groupPolicyRecord, policyAttachmentRecord, policyRecord, roleRecord, rolePolicyRecord]
      decide)
    · exact fun h => absurd h (by
      dsimp only [userRecord, userPolicyRecord, groupRecord, groupMembershipRecord,
        groupPolicyRecord, policyAttachmentRecord, policyRecord, roleRecord, rolePolicyRecord]
      decide)
    · exact fun _ => colon_id_ne _ _ _ _ (hc u1 h1) (hc u2 h2) hne

theorem groupRecords_pairwise (svc : Client)
    (hn : (svc.ListGroups.items.map fun group => StringValue group.GroupName).Nodup)
    (hp : ∀ group ∈ svc.ListGroups.items, (svc.ListGroupPolicies group.GroupName).items.Nodup)
    (hc : ∀ group ∈ svc.ListGroups.items, ':' ∉ (StringValue group.GroupName).data) :
    (groupRecords svc).Pairwise DistinctIfSameType := by
  unfold groupRecords
  rw [List.pairwise_flatMap]
  refine ⟨fun u hu => ?_, ?_⟩
  · show List.Pairwise _ (groupRecord u :: groupMembershipRecord u :: _)
    rw [List.pairwise_cons, List.pairwise_cons]
    refine ⟨?_, ?_, ?_⟩
    · intro r hr
      simp only [List.mem_cons, List.mem_map] at hr
      rcases hr with rfl | ⟨p, -, rfl⟩ <;> exact fun h => absurd h (by
      dsimp only [userRecord, userPolicyRecord, groupRecord, groupMembershipRecord,
        groupPolicyRecord, policyAttachmentRecord, policyRecord, roleRecord, rolePolicyRecord]
      decide)
    · intro r hr
      simp only [List.mem_map] at hr
      obtain ⟨p, -, rfl⟩ := hr
      exact fun h => absurd h (by
      dsimp only [userRecord, userPolicyRecord, groupRecord, groupMembershipRecord,
        groupPolicyRecord, policyAttachmentRecord, policyRecord, roleRecord, rolePolicyRecord]
      decide)
    · rw [List.pairwise_map]
      exact (hp u hu).imp fun hne _ hid => hne (colon_id_cancel _ _ _ hid)
  · refine (pairwise_of_nodup_map hn).imp_of_mem ?_
    intro u1 u2 h1 h2 hne x hx y hy
    simp only [groupBlock, List.mem_cons, List.mem_map] at hx hy
    rcases hx with rfl | rfl | ⟨p, -, rfl⟩ <;> rcases hy with rfl | rfl | ⟨q, -, rfl⟩
    · exact fun _ => hne
    · exact fun h => absurd h (by
      dsimp only [userRecord, userPolicyRecord, groupRecord, groupMembershipRecord,
        groupPolicyRecord, policyAttachmentRecord, policyRecord, roleRecord, rolePolicyRecord]
      decide)
    · exact fun h => absurd h (by
      dsimp only [userRecord, userPolicyRecord, groupRecord, groupMembershipRecord,
        groupPolicyRecord, policyAttachmentRecord, policyRecord, roleRecord, rolePolicyRecord]
      decide)
    · exact fun h => absurd h (by
      dsimp only [userRecord, userPolicyRecord, groupRecord, groupMembershipRecord,
        groupPolicyRecord, policyAttachmentRecord, policyRecord, roleRecord, rolePolicyRecord]
      decide)
    · exact fun _ => hne
    · exact fun h => absurd h (by
      dsimp only [userRecord, userPolicyRecord, groupRecord, groupMembershipRecord,
        groupPolicyRecord, policyAttachmentRecord, policyRecord, roleRecord, rolePolicyRecord]
      decide)
    · exact fun h => absurd h (by
      dsimp only [userRecord, userPolicyRecord, groupRecord, groupMembershipRecord,
        groupPolicyRecord, policyAttachmentRecord, policyRecord, roleRecord, rolePolicyRecord]
      decide)
    · exact fun h => absurd h (by
      dsimp only [userRecord, userPolicyRecord, groupRecord, groupMembershipRecord,
        groupPolicyRecord, policyAttachmentRecord, policyRecord, roleRecord, rolePolicyRecord]
      decide)
    · exact fun _ => colon_id_ne _ _ _ _ (hc u1 h1) (hc u2 h2) hne

theorem policyRecords_pairwise (svc : Client)
    (hn : ((svc.ListPolicies "Local").items.map fun policy => StringValue policy.Arn).Nodup) :
    (policyRecords svc).Pairwise DistinctIfSameType := by
  unfold policyRecords
  rw [List.pairwise_flatMap]
  refine ⟨fun u _ => ?_, ?_⟩
  · show List.Pairwise _ [policyAttachmentRecord u, policyRecord u]
    simp only [List.pairwise_cons, List.mem_singleton, List.not_mem_nil, forall_eq,
      List.Pairwise.nil, and_true, IsEmpty.forall_iff, implies_true]
    exact fun h => absurd h (by
      dsimp only [userRecord, userPolicyRecord, groupRecord, groupMembershipRecord,
        groupPolicyRecord, policyAttachmentRecord, policyRecord, roleRecord, rolePolicyRecord]
      decide)
  · refine (pairwise_of_nodup_map hn).imp ?_
    intro u1 u2 hne x hx y hy
    simp only [policyBlock, List.mem_cons, List.mem_singleton, List.not_mem_nil,
      or_false] at hx hy
    rcases hx with rfl | rfl <;> rcases hy with rfl | rfl
    · exact fun _ => hne
    · exact fun h => absurd h (by
      dsimp only [userRecord, userPolicyRecord, groupRecord, groupMembershipRecord,
        groupPolicyRecord, policyAttachmentRecord, policyRecord, roleRecord, rolePolicyRecord]
      decide)
    · exact fun h => absurd h (by
      dsimp only [userRecord, userPolicyRecord, groupRecord, groupMembershipRecord,
        groupPolicyRecord, policyAttachmentRecord, policyRecord, roleRecord, rolePolicyRecord]
      decide)
    · exact fun _ => hne

theorem roleRecords_pairwise (svc : Client)
    (hi : (svc.ListRoles.items.map fun role => StringValue role.RoleId).Nodup)
    (hn : (svc.ListRoles.items.map fun role => StringValue role.RoleName).Nodup)
    (hp : ∀ role ∈ svc.ListRoles.items, (svc.ListRolePolicies role.RoleName).items.Nodup)
    (hc : ∀ role ∈ svc.ListRoles.items, ':' ∉ (StringValue role.RoleName).data) :
    (roleRecords svc).Pairwise DistinctIfSameType := by
  unfold roleRecords
  rw [List.pairwise_flatMap]
  refine ⟨fun u hu => ?_, ?_⟩
  · show List.Pairwise _ (roleRecord u :: _)
    rw [List.pairwise_cons]
    refine ⟨?_, ?_⟩
    · intro r hr
      simp only [List.mem_map] at hr
      obtain ⟨p, -, rfl⟩ := hr
      exact fun h => absurd h (by
      dsimp only [userRecord, userPolicyRecord, groupRecord, groupMembershipRecord,
        groupPolicyRecord, policyAttachmentRecord, policyRecord, roleRecord, rolePolicyRecord]
      decide)
    · rw [List.pairwise_map]
      exact (hp u hu).imp fun hne _ hid => hne (colon_id_cancel _ _ _ hid)
  · have hboth : svc.ListRoles.items.Pairwise fun a b =>
        StringValue a.RoleId ≠ StringValue b.RoleId ∧
          StringValue a.RoleName ≠ StringValue b.RoleName :=
      (pairwise_of_nodup_map hi).and (pairwise_of_nodup_map hn)
    refine hboth.imp_of_mem ?_
    intro u1 u2 h1 h2 hne x hx y hy
    simp only [roleBlock, List.mem_cons, List.mem_map] at hx hy
    rcases hx with rfl | ⟨p, -, rfl⟩ <;> rcases hy with rfl | ⟨q, -, rfl⟩
    · exact fun _ => hne.1
    · exact fun h => absurd h (by
      dsimp only [userRecord, userPolicyRecord, groupRecord, groupMembershipRecord,
        groupPolicyRecord, policyAttachmentRecord, policyRecord, roleRecord, rolePolicyRecord]
      decide)
    · exact fun h => absurd h (by
      dsimp only [userRecord, userPolicyRecord, groupRecord, groupMembershipRecord,
        groupPolicyRecord, policyAttachmentRecord, policyRecord, roleRecord, rolePolicyRecord]
      decide)
    · exact fun _ => colon_id_ne _ _ _ _ (hc u1 h1) (hc u2 h2) hne.2

theorem userRecords_type (svc : Client) (r : Resource) (h : r ∈ userRecords svc) :
    r.InstanceType ∈ ["aws_iam_user", "aws_iam_user_policy"] := by
  simp only [userRecords, List.mem_flatMap, userBlock, userPolicyRecords, List.mem_cons,
    List.mem_map] at h
  obtain ⟨u, -, rfl | ⟨p, -, rfl⟩⟩ := h <;>
    (dsimp only [userRecord, userPolicyRecord, groupRecord, groupMembershipRecord,
        groupPolicyRecord, policyAttachmentRecord, policyRecord, roleRecord, rolePolicyRecord]
     decide)

theorem groupRecords_type (svc : Client) (r : Resource) (h : r ∈ groupRecords svc) :
    r.InstanceType ∈ ["aws_iam_group", "aws_iam_group_membership", "aws_iam_group_policy"] := by
  simp only [groupRecords, List.mem_flatMap, groupBlock, List.mem_cons, List.mem_map] at h
  obtain ⟨u, -, rfl | rfl | ⟨p, -, rfl⟩⟩ := h <;>
    (dsimp only [userRecord, userPolicyRecord, groupRecord, groupMembershipRecord,
        groupPolicyRecord, policyAttachmentRecord, policyRecord, roleRecord, rolePolicyRecord]
     decide)

theorem policyRecords_type (svc : Client) (r : Resource) (h : r ∈ policyRecords svc) :
    r.InstanceType ∈ ["aws_iam_policy_attachment", "aws_iam_policy"] := by
  simp only [policyRecords, List.mem_flatMap, policyBlock, List.mem_cons, List.mem_singleton,
    List.not_mem_nil, or_false] at h
  obtain ⟨u, -, rfl | rfl⟩ := h <;>
    (dsimp only [userRecord, userPolicyRecord, groupRecord, groupMembershipRecord,
        groupPolicyRecord, policyAttachmentRecord, policyRecord, roleRecord, rolePolicyRecord]
     decide)

theorem roleRecords_type (svc : Client) (r : Resource) (h : r ∈ roleRecords svc) :
    r.InstanceType ∈ ["aws_iam_role", "aws_iam_role_policy"] := by
  simp only [roleRecords, List.mem_flatMap, roleBlock, List.mem_cons, List.mem_map] at h
  obtain ⟨u, -, rfl | ⟨p, -, rfl⟩⟩ := h <;>
    (dsimp only [userRecord, userPolicyRecord, groupRecord, groupMembershipRecord,
        groupPolicyRecord, policyAttachmentRecord, policyRecord, roleRecord, rolePolicyRecord]
     decide)

/-- Records whose type tags come from disjoint sets of tags do not clash. -/
theorem distinct_of_types (l1 l2 : List String) (hd : ∀ s ∈ l1, ∀ t ∈ l2, s ≠ t)
    (a b : Resource) (ha : a.InstanceType ∈ l1) (hb : b.InstanceType ∈ l2) :
    DistinctIfSameType a b :=
  fun h => absurd h (hd _ ha _ hb)

theorem allRecords_pairwise (svc : Client) (hn : NoDuplicateListings svc)
    (hc : ColonFreeParents svc) :
    (userRecords svc ++ groupRecords svc ++ policyRecords svc ++ roleRecords svc).Pairwise
      DistinctIfSameType := by
  obtain ⟨hu, hg, hpo, hri, hrn, hup, hgp, hrp⟩ := hn
  obtain ⟨hcu, hcg, hcr⟩ := hc
  simp only [List.pairwise_append, List.mem_append]
  refine ⟨⟨⟨userRecords_pairwise svc hu hup hcu, groupRecords_pairwise svc hg hgp hcg, ?_⟩,
    policyRecords_pairwise svc hpo, ?_⟩, roleRecords_pairwise svc hri hrn hrp hcr, ?_⟩
  · intro a ha b hb
    exact distinct_of_types _ _ (by decide) a b (userRecords_type svc a ha)
      (groupRecords_type svc b hb)
  · intro a ha b hb
    rcases ha with ha | ha
    · exact distinct_of_types _ _ (by decide) a b (userRecords_type svc a ha)
        (policyRecords_type svc b hb)
    · exact distinct_of_types _ _ (by decide) a b (groupRecords_type svc a ha)
        (policyRecords_type svc b hb)
  · intro a ha b hb
    rcases ha with (ha | ha) | ha
    · exact distinct_of_types _ _ (by decide) a b (userRecords_type svc a ha)
        (roleRecords_type svc b hb)
    · exact distinct_of_types _ _ (by decide) a b (groupRecords_type svc a ha)
        (roleRecords_type svc b hb)
    · exact distinct_of_types _ _ (by decide) a b (policyRecords_type svc a ha)
        (roleRecords_type svc b hb)

theorem pairwise_getElem? {l : List Resource} (h : l.Pairwise DistinctIfSameType)
    (i j : Nat) (a b : Resource) (hij : i ≠ j) (hi : l[i]? = some a) (hj : l[j]? = some b) :
    DistinctIfSameType a b := by
  rw [List.pairwise_iff_getElem] at h
  obtain ⟨hi1, rfl⟩ := List.getElem?_eq_some_iff.1 hi
  obtain ⟨hj1, rfl⟩ := List.getElem?_eq_some_iff.1 hj
  rcases Nat.lt_or_gt_of_ne hij with hlt | hgt
  · exact h i j hi1 hj1 hlt
  · intro ht hid
    exact h j i hj1 hi1 hgt ht.symm hid.symm

/-- C7, as stated, fails: the listings of `colonClient` contain no duplicates
(role ids `RID1`, `RID2`; role names `a`, `a:b`; one inline policy each), yet
the records at positions 1 and 3 are both of type `aws_iam_role_policy` with
id `a:b:c`. -/
theorem composite_ids_clash :
    NoDuplicateListings colonClient ∧
      ((InitResources colonEnv ⟨[], []⟩).1.Resources.map fun r => (r.InstanceType, r.ID)) =
        [("aws_iam_role", "RID1"), ("aws_iam_role_policy", "a:b:c"),
          ("aws_iam_role", "RID2"), ("aws_iam_role_policy", "a:b:c")] ∧
      (some "a", "b:c") ≠ (some "a:b", "c") ∧
      (rolePolicyRecord (some "a") "b:c").ID = (rolePolicyRecord (some "a:b") "c").ID := by
  decide

/-- C7, amended. Ids are unique per resource type in the result of one pass,
provided the listings contain no duplicates and no listed user, group or role
name contains a colon: any two records at different positions with the same
type tag have different ids.  In particular the composite ids `parent:policy`
are pairwise distinct for colon-free parent names and arbitrary policy names. -/
theorem ids_unique_per_type {Config : Type} (env : Env Config) (g : IamGenerator)
    (config : Config) (hcfg : env.generateConfig = .ok config)
    (hn : NoDuplicateListings (env.New config)) (hc : ColonFreeParents (env.New config)) :
    (∀ (i j : Nat) (a b : Resource), i ≠ j →
      (InitResources env g).1.Resources[i]? = some a →
      (InitResources env g).1.Resources[j]? = some b →
      a.InstanceType = b.InstanceType → a.ID ≠ b.ID) ∧
    (∀ parent1 parent2 policy1 policy2 : String,
      ':' ∉ parent1.data → ':' ∉ parent2.data → (parent1, policy1) ≠ (parent2, policy2) →
      parent1 ++ ":" ++ policy1 ≠ parent2 ++ ":" ++ policy2) := by
  refine ⟨?_, ?_⟩
  · rw [InitResources_ok env g config hcfg]
    intro i j a b hij hi hj
    exact pairwise_getElem? (allRecords_pairwise _ hn hc) i j a b hij hi hj
  · intro n1 n2 p1 p2 h1 h2 hne hid
    have hd := congrArg String.data hid
    rw [colon_id_data, colon_id_data] at hd
    obtain ⟨ha, hb⟩ := colon_join_inj _ _ _ _ h1 h2 hd
    exact hne (by rw [String.ext ha, String.ext hb])

/-- In the pass over the fixture client the two inline policies of user
`ann@corp`, at positions 1 and 2, have different ids. -/
theorem ids_unique_per_type_witness :
    (InitResources fixtureEnv staleGenerator).1.Resources[1]? =
        some (userPolicyRecord (some "ann@corp") "read") ∧
      (InitResources fixtureEnv staleGenerator).1.Resources[2]? =
        some (userPolicyRecord (some "ann@corp") "write") ∧
      (userPolicyRecord (some "ann@corp") "read").ID ≠
        (userPolicyRecord (some "ann@corp") "write").ID :=
  ⟨by decide, by decide,
    (ids_unique_per_type fixtureEnv staleGenerator () rfl (by decide) (by decide)).1 1 2 _ _
      (by decide) (by decide) (by decide) rfl⟩

/-! ## Lemmas on the formatter -/

theorem hookLoop_cons (Rs : List Resource) (i : Nat) (r : Resource)
    (rest : List (Nat × Resource)) (heap : Heap) :
    hookLoop Rs ((i, r) :: rest) heap = (hookBody Rs heap i r).bind (hookLoop Rs rest) := rfl

theorem role_not_policyTyped : ¬PolicyTyped "aws_iam_role" := by decide

/-- One run of the loop body at index `i` on the struct stored there: the
map object the struct refers to is formatted, every other object is
untouched. -/
theorem hookBody_effect (Rs : List Resource) (heap heap1 : Heap) (i : Nat) (r : Resource)
    (hget : Rs.get? i = some r) (h : hookBody Rs heap i r = some heap1) :
    (∀ a, r.Item ≠ some a → heap1 a = heap a) ∧
      ∀ a, r.Item = some a → heap1 a = formatted r.InstanceType (heap a) := by
  unfold hookBody at h
  simp only [hget, Option.some_bind] at h
  by_cases hp : PolicyTyped r.InstanceType
  · simp only [hp, if_true] at h
    cases hi : r.Item with
    | none => simp [hi, mapIndex, assertString] at h
    | some m =>
      simp only [hi, mapIndex] at h
      cases hv : heap m "policy" with
      | none => simp [hv, assertString] at h
      | some v =>
        cases v with
        | other n => simp [hv, assertString] at h
        | str p =>
          simp only [hv, assertString, Option.some_bind, mapAssign, Option.some.injEq] at h
          subst h
          refine ⟨fun a ha => ?_, fun a ha => ?_⟩
          · have : a ≠ m := fun e => ha (by rw [e])
            simp [this]
          · have : a = m := (Option.some.inj ha).symm
            subst this
            funext key
            simp [formatted, hp, wrapKey, hv]
  · simp only [hp, if_false] at h
    by_cases hr : r.InstanceType = "aws_iam_role"
    · simp only [hr, if_true] at h
      cases hi : r.Item with
      | none => simp [hi, mapIndex, assertString] at h
      | some m =>
        simp only [hi, mapIndex] at h
        cases hv : heap m "assume_role_policy" with
        | none => simp [hv, assertString] at h
        | some v =>
          cases v with
          | other n => simp [hv, assertString] at h
          | str p =>
            simp only [hv, assertString, Option.some_bind, mapAssign, Option.some.injEq] at h
            subst h
            refine ⟨fun a ha => ?_, fun a ha => ?_⟩
            · have : a ≠ m := fun e => ha (by rw [e])
              simp [this]
            · have : a = m := (Option.some.inj ha).symm
              subst this
              funext key
              simp [formatted, hr, role_not_policyTyped, wrapKey, hv]
    · simp only [hr, if_false, Option.some.injEq] at h
      subst h
      refine ⟨fun _ _ => rfl, fun a _ => ?_⟩
      simp [formatted, hp, hr]

/-- The loop leaves untouched every map object that none of the remaining
structs refers to. -/
theorem hookLoop_frame (Rs : List Resource) (l : List Resource) (k : Nat) (heap heap2 : Heap)
    (hRs : ∀ j r, l.get? j = some r → Rs.get? (k + j) = some r)
    (h : hookLoop Rs (l.enumFrom k) heap = some heap2) :
    ∀ a, (∀ r ∈ l, r.Item ≠ some a) → heap2 a = heap a := by
  induction l generalizing k heap with
  | nil =>
    simp only [List.enumFrom_nil, hookLoop, Option.some.injEq] at h
    subst h
    exact fun _ _ => rfl
  | cons r rs ih =>
    simp only [List.enumFrom_cons, hookLoop_cons] at h
    have hget : Rs.get? k = some r := by simpa using hRs 0 r (by simp)
    have hRs2 : ∀ j r2, rs.get? j = some r2 → Rs.get? (k + 1 + j) = some r2 := by
      intro j r2 hj
      rw [show k + 1 + j = k + (j + 1) by omega]
      exact hRs (j + 1) r2 (by simpa using hj)
    cases hb : hookBody Rs heap k r with
    | none => simp [hb] at h
    | some heap1 =>
      simp only [hb, Option.some_bind] at h
      intro a ha
      rw [ih (k + 1) heap1 hRs2 h a fun x hx => ha x (List.mem_cons_of_mem _ hx),
        (hookBody_effect Rs heap heap1 k r hget hb).1 a (ha r (List.mem_cons_self _ _))]

/-- The loop over structs no two of which refer to the same map object
formats the object of each struct once. -/
theorem hookLoop_effect (Rs : List Resource) (l : List Resource) (k : Nat) (heap heap2 : Heap)
    (hRs : ∀ j r, l.get? j = some r → Rs.get? (k + j) = some r)
    (hown : l.Pairwise fun x y => x.Item = none ∨ x.Item ≠ y.Item)
    (h : hookLoop Rs (l.enumFrom k) heap = some heap2) :
    ∀ r ∈ l, ∀ a, r.Item = some a → heap2 a = formatted r.InstanceType (heap a) := by
  induction l generalizing k heap with
  | nil => exact fun r hr => by simp at hr
  | cons r rs ih =>
    simp only [List.enumFrom_cons, hookLoop_cons] at h
    have hget : Rs.get? k = some r := by simpa using hRs 0 r (by simp)
    have hRs2 : ∀ j r2, rs.get? j = some r2 → Rs.get? (k + 1 + j) = some r2 := by
      intro j r2 hj
      rw [show k + 1 + j = k + (j + 1) by omega]
      exact hRs (j + 1) r2 (by simpa using hj)
    rw [List.pairwise_cons] at hown
    obtain ⟨hhead, htail⟩ := hown
    cases hb : hookBody Rs heap k r with
    | none => simp [hb] at h
    | some heap1 =>
      simp only [hb, Option.some_bind] at h
      obtain ⟨hother, hself⟩ := hookBody_effect Rs heap heap1 k r hget hb
      intro x hx a ha
      rcases List.mem_cons.1 hx with rfl | hx
      · rw [hookLoop_frame Rs rs (k + 1) heap1 heap2 hRs2 h a, hself a ha]
        intro y hy hya
        rcases hhead y hy with hn | hne
        · rw [hn] at ha; exact Option.noConfusion ha
        · exact hne (by rw [ha, hya])
      · have hra : r.Item ≠ some a := by
          intro hra
          rcases hhead x hx with hn | hne
          · rw [hn] at hra; exact Option.noConfusion hra
          · exact hne (by rw [ha, hra])
        rw [ih (k + 1) heap1 hRs2 htail h x hx a ha, hother a hra]

/-- The formatter on a state in which no two records share an attribute map:
it returns nil, leaves the slice as it is, and the stored records are those
held before with their maps formatted. -/
theorem PostConvertHook_stored (g : IamGenerator) (heap : Heap) (hown : OwnMaps g)
    (err : Option Error) (g2 : IamGenerator) (heap2 : Heap)
    (h : PostConvertHook g heap = .returned err g2 heap2) :
    err = none ∧ g2 = g ∧
      stored g2 heap2 =
        (stored g heap).map fun r => r.withItem (r.Item.map (formatted r.InstanceType)) := by
  unfold PostConvertHook at h
  cases hl : hookLoop g.Resources g.Resources.enum heap with
  | none => simp [hl] at h
  | some heap3 =>
    simp only [hl, Outcome.returned.injEq] at h
    obtain ⟨h1, h2, h3⟩ := h
    subst h1 h2 h3
    refine ⟨rfl, rfl, ?_⟩
    have heff := hookLoop_effect g.Resources g.Resources 0 heap heap3
      (fun j r hj => by simpa using hj) hown hl
    simp only [stored, List.map_map]
    apply List.map_congr_left
    intro r hr
    cases hi : r.Item with
    | none => simp [ResourceOf.withItem, hi]
    | some a => simp [ResourceOf.withItem, hi, heff r hr a hi]

theorem isStr_eq_true (v : Option Value) : isStr v = true ↔ ∃ p, v = some (.str p) := by
  cases v with
  | none => simp [isStr]
  | some v => cases v <;> simp [isStr]

/-- The loop body at index `i` on the struct stored there: it completes exactly
on a ready record, and it never changes whether a key of a map holds a
string. -/
theorem hookBody_ready (Rs : List Resource) (heap : Heap) (i : Nat) (r : Resource)
    (hget : Rs.get? i = some r) :
    (ReadyRecord heap r → ∃ heap1, hookBody Rs heap i r = some heap1) ∧
    (¬ReadyRecord heap r → hookBody Rs heap i r = none) ∧
    (∀ heap1, hookBody Rs heap i r = some heap1 → ∀ ref key,
      isStr (mapIndex heap1 ref key) = isStr (mapIndex heap ref key)) := by
  unfold hookBody ReadyRecord
  simp only [hget, Option.some_bind]
  by_cases hp : PolicyTyped r.InstanceType
  · have hr : r.InstanceType ≠ "aws_iam_role" := fun h => role_not_policyTyped (h ▸ hp)
    simp only [hp, hr, if_true, true_implies, false_implies, and_true]
    cases hi : r.Item with
    | none => simp [mapIndex, assertString, isStr]
    | some a =>
      cases hv : heap a "policy" with
      | none => simp [mapIndex, assertString, isStr, hv]
      | some v =>
        cases v with
        | other n => simp [mapIndex, assertString, isStr, hv]
        | str p =>
          simp only [mapIndex, hv, assertString, isStr, Option.some_bind, mapAssign,
            Option.some.injEq, exists_eq', not_true_eq_false, false_implies, true_and,
            implies_true]
          intro heap1 h1 ref key
          subst h1
          cases ref with
          | none => rfl
          | some b =>
            by_cases hb : b = a
            · by_cases hk : key = "policy"
              · simp [hb, hk, hv, isStr]
              · simp [hb, hk]
            · simp [hb]
  · simp only [hp, if_false, false_implies, true_and]
    by_cases hr : r.InstanceType = "aws_iam_role"
    · simp only [hr, if_true, true_implies]
      cases hi : r.Item with
      | none => simp [mapIndex, assertString, isStr]
      | some a =>
        cases hv : heap a "assume_role_policy" with
        | none => simp [mapIndex, assertString, isStr, hv]
        | some v =>
          cases v with
          | other n => simp [mapIndex, assertString, isStr, hv]
          | str p =>
            simp only [mapIndex, hv, assertString, isStr, Option.some_bind, mapAssign,
              Option.some.injEq, exists_eq', not_true_eq_false, false_implies, true_and,
              implies_true]
            intro heap1 h1 ref key
            subst h1
            cases ref with
            | none => rfl
            | some b =>
              by_cases hb : b = a
              · by_cases hk : key = "assume_role_policy"
                · simp [hb, hk, hv, isStr]
                · simp [hb, hk]
              · simp [hb]
    · simp only [hr, if_false, false_implies, Option.some.injEq, exists_eq', true_implies,
        not_true_eq_false]
      refine ⟨trivial, trivial, ?_⟩
      intro heap1 h1 ref key
      subst h1
      rfl

theorem readyRecord_congr (heap heap1 : Heap) (r : Resource)
    (h : ∀ ref key, isStr (mapIndex heap1 ref key) = isStr (mapIndex heap ref key)) :
    ReadyRecord heap1 r ↔ ReadyRecord heap r := by
  unfold ReadyRecord
  rw [h, h]

/-- The loop completes exactly when every remaining record is ready. -/
theorem hookLoop_ready (Rs : List Resource) (l : List Resource) (k : Nat) (heap : Heap)
    (hRs : ∀ j r, l.get? j = some r → Rs.get? (k + j) = some r) :
    ((∀ r ∈ l, ReadyRecord heap r) → ∃ heap2, hookLoop Rs (l.enumFrom k) heap = some heap2) ∧
    (¬(∀ r ∈ l, ReadyRecord heap r) → hookLoop Rs (l.enumFrom k) heap = none) := by
  induction l generalizing k heap with
  | nil => exact ⟨fun _ => ⟨heap, rfl⟩, fun h => absurd (fun r hr => by simp at hr) h⟩
  | cons r rs ih =>
    have hget : Rs.get? k = some r := by simpa using hRs 0 r (by simp)
    have hRs2 : ∀ j r2, rs.get? j = some r2 → Rs.get? (k + 1 + j) = some r2 := by
      intro j r2 hj
      rw [show k + 1 + j = k + (j + 1) by omega]
      exact hRs (j + 1) r2 (by simpa using hj)
    obtain ⟨hok, hbad, hstr⟩ := hookBody_ready Rs heap k r hget
    simp only [List.enumFrom_cons, hookLoop_cons, List.forall_mem_cons]
    by_cases hr : ReadyRecord heap r
    · obtain ⟨heap1, h1⟩ := hok hr
      have hcongr : (∀ x ∈ rs, ReadyRecord heap1 x) ↔ ∀ x ∈ rs, ReadyRecord heap x :=
        forall₂_congr fun x _ => readyRecord_congr heap heap1 x (hstr heap1 h1)
      obtain ⟨ih1, ih2⟩ := ih (k + 1) heap1 hRs2
      simp only [h1, Option.some_bind]
      refine ⟨fun h => ih1 (hcongr.2 h.2), fun h => ih2 fun h2 => h ⟨hr, hcongr.1 h2⟩⟩
    · simp only [hbad hr, Option.none_bind]
      exact ⟨fun h => absurd h.1 hr, fun _ => trivial⟩

/-! ## Claims on the formatter -/

/-- C1, as stated, fails: two `aws_iam_policy` structs that refer to one and
the same map object, whose `policy` is the string `P`.  The formatter returns,
and the `policy` of both stored records is `P` wrapped twice, not `P` wrapped
once. -/
theorem shared_map_wrapped_twice :
    (stored ⟨twoPoliciesOneMap, []⟩ oneMapHeap).map (fun r => (r.InstanceType, attr r "policy")) =
        [("aws_iam_policy", some (.str "P")), ("aws_iam_policy", some (.str "P"))] ∧
      (hookResult ⟨twoPoliciesOneMap, []⟩ oneMapHeap).map (List.map fun r => attr r "policy") =
        some [some (.str "<<POLICY\n<<POLICY\nP\nPOLICY\nPOLICY"),
          some (.str "<<POLICY\n<<POLICY\nP\nPOLICY\nPOLICY")] ∧
      (some (Value.str "<<POLICY\n<<POLICY\nP\nPOLICY\nPOLICY") : Option Value) ≠
        some (.str ("<<POLICY\n" ++ "P" ++ "\nPOLICY")) := by
  decide

/-- C1, amended. For every collector state in which no two records of
`g.Resources` share an attribute map, after `PostConvertHook` has returned,
every stored record of type `aws_iam_policy`, `aws_iam_user_policy`,
`aws_iam_group_policy` or `aws_iam_role_policy` whose `policy` attribute was
the string `p` has `policy` equal to `<<POLICY\n` ++ p ++ `\nPOLICY`, and every
record of type `aws_iam_role` whose `assume_role_policy` was the string `p` has
`assume_role_policy` equal to the same wrapping of `p`.  Both are read from the
records stored in `g.Resources`, so the write through the loop copy and the
write through `g.Resources[i]` are both visible there. -/
theorem PostConvertHook_wraps_policy_text (g : IamGenerator) (heap : Heap) (hown : OwnMaps g)
    (err : Option Error) (g2 : IamGenerator) (heap2 : Heap)
    (h : PostConvertHook g heap = .returned err g2 heap2)
    (i : Nat) (r : Record) (p : String) (hi : (stored g heap).get? i = some r) :
    (PolicyTyped r.InstanceType → attr r "policy" = some (.str p) →
      ((stored g2 heap2).get? i).bind (fun r2 => attr r2 "policy") =
        some (.str ("<<POLICY\n" ++ p ++ "\nPOLICY"))) ∧
    (r.InstanceType = "aws_iam_role" → attr r "assume_role_policy" = some (.str p) →
      ((stored g2 heap2).get? i).bind (fun r2 => attr r2 "assume_role_policy") =
        some (.str ("<<POLICY\n" ++ p ++ "\nPOLICY"))) := by
  obtain ⟨-, -, hst⟩ := PostConvertHook_stored g heap hown err g2 heap2 h
  rw [hst, List.get?_eq_getElem?, List.getElem?_map, ← List.get?_eq_getElem?, hi]
  simp only [Option.map_some', Option.some_bind, attr, ResourceOf.withItem]
  refine ⟨fun hp ha => ?_, fun hr ha => ?_⟩
  · cases hm : r.Item with
    | none => simp [attr, hm] at ha
    | some m =>
      simp only [attr, hm, Option.some_bind] at ha
      simp [formatted, hp, wrapKey, ha, heredoc]
  · cases hm : r.Item with
    | none => simp [attr, hm] at ha
    | some m =>
      simp only [attr, hm, Option.some_bind] at ha
      simp [formatted, hr, role_not_policyTyped, wrapKey, ha, heredoc]

/-- The formatter returns nil on a state all of whose records are ready, and
panics on every other state. -/
theorem PostConvertHook_ready (g : IamGenerator) (heap : Heap) :
    (HookReady g heap → ∃ heap2, PostConvertHook g heap = .returned none g heap2) ∧
    (¬HookReady g heap → PostConvertHook g heap = .panic) := by
  obtain ⟨h1, h2⟩ := hookLoop_ready g.Resources g.Resources 0 heap
    (fun j r hj => by simpa using hj)
  unfold PostConvertHook HookReady
  refine ⟨fun h => ?_, fun h => ?_⟩
  · obtain ⟨heap2, h3⟩ := h1 h
    exact ⟨heap2, by rw [List.enum, h3]⟩
  · rw [List.enum, h2 h]

/-- C2, as stated, fails: an `aws_iam_user` struct and an `aws_iam_policy`
struct that refer to one and the same map object, whose `policy` is the string
`P`.  The formatter completes, and the `policy` attribute of the stored user
record, a record of another type, has changed from `P` to `P` wrapped. -/
theorem shared_map_changes_other_type :
    (stored ⟨userAndPolicyOneMap, []⟩ oneMapHeap).map
        (fun r => (r.InstanceType, attr r "policy")) =
        [("aws_iam_user", some (.str "P")), ("aws_iam_policy", some (.str "P"))] ∧
      (hookResult ⟨userAndPolicyOneMap, []⟩ oneMapHeap).map
        (List.map fun r => (r.InstanceType, attr r "policy")) =
        some [("aws_iam_user", some (.str "<<POLICY\nP\nPOLICY")),
          ("aws_iam_policy", some (.str "<<POLICY\nP\nPOLICY"))] := by
  decide

/-- C2, amended. The formatter wraps exactly the policy-bearing fields: for
every collector state in which no two records of `g.Resources` share an
attribute map and on which `PostConvertHook` completes, the slice
`g.Resources` is the same sequence of structs (same number and order, same map
references), every record keeps its id, name, type tag, provider tag, initial
attributes and allow-empty list, every attribute other than `policy` (on the
four policy types) or `assume_role_policy` (on `aws_iam_role`) is unchanged,
and a record of any other type is unchanged altogether, also when it carries a
`policy` attribute. -/
theorem PostConvertHook_frame (g : IamGenerator) (heap : Heap) (hown : OwnMaps g)
    (err : Option Error) (g2 : IamGenerator) (heap2 : Heap)
    (h : PostConvertHook g heap = .returned err g2 heap2) :
    g2 = g ∧ (stored g2 heap2).length = (stored g heap).length ∧
    ∀ (i : Nat) (r : Record), (stored g heap).get? i = some r →
      ∃ r2, (stored g2 heap2).get? i = some r2 ∧
        r2.ID = r.ID ∧ r2.ResourceName = r.ResourceName ∧
        r2.InstanceType = r.InstanceType ∧ r2.Provider = r.Provider ∧
        r2.Attributes = r.Attributes ∧ r2.AllowEmptyValues = r.AllowEmptyValues ∧
        r2.Item.isSome = r.Item.isSome ∧
        (∀ key : String, ¬(PolicyTyped r.InstanceType ∧ key = "policy") →
          ¬(r.InstanceType = "aws_iam_role" ∧ key = "assume_role_policy") →
          attr r2 key = attr r key) ∧
        (¬PolicyTyped r.InstanceType → r.InstanceType ≠ "aws_iam_role" → r2 = r) := by
  obtain ⟨-, hg, hst⟩ := PostConvertHook_stored g heap hown err g2 heap2 h
  refine ⟨hg, by rw [hst, List.length_map], ?_⟩
  intro i r hi
  refine ⟨r.withItem (r.Item.map (formatted r.InstanceType)), ?_, rfl, rfl, rfl, rfl, rfl, rfl,
    ?_, ?_, ?_⟩
  · rw [hst, List.get?_eq_getElem?, List.getElem?_map, ← List.get?_eq_getElem?, hi]
    rfl
  · cases r.Item <;> rfl
  · intro key h1 h2
    cases hm : r.Item with
    | none => simp [attr, ResourceOf.withItem, hm]
    | some m =>
      simp only [attr, ResourceOf.withItem, hm, Option.map_some', Option.some_bind, formatted]
      by_cases hp : PolicyTyped r.InstanceType
      · have hk : key ≠ "policy" := fun hk => h1 ⟨hp, hk⟩
        simp [hp, wrapKey, hk]
      · by_cases hr : r.InstanceType = "aws_iam_role"
        · have hk : key ≠ "assume_role_policy" := fun hk => h2 ⟨hr, hk⟩
          simp [hr, role_not_policyTyped, wrapKey, hk]
        · simp [hp, hr]
  · intro hp hr
    have hf : formatted r.InstanceType = id := by
      funext m
      simp [formatted, hp, hr]
    rw [hf]
    cases r with
    | mk a b c d e f item => cases item <;> rfl

/-- On `userAndPolicy`, whose records each have a map of their own, the
formatter completes; the user record, which carries a `policy` attribute, is
unchanged, and the `path` attribute of the policy record is unchanged. -/
theorem PostConvertHook_frame_witness :
    OwnMaps ⟨allocFrom 0 userAndPolicy, []⟩ ∧
    ∃ g2 heap2,
      PostConvertHook ⟨allocFrom 0 userAndPolicy, []⟩ (heapOf userAndPolicy) =
        .returned none g2 heap2 ∧
      (stored g2 heap2).length = 2 ∧
      (stored g2 heap2).get? 0 =
        (stored ⟨allocFrom 0 userAndPolicy, []⟩ (heapOf userAndPolicy)).get? 0 ∧
      ((stored g2 heap2).get? 1).bind (fun r2 => attr r2 "path") = some (.str "/") := by
  obtain ⟨heap2, h2⟩ := (PostConvertHook_ready ⟨allocFrom 0 userAndPolicy, []⟩
    (heapOf userAndPolicy)).1 (by decide)
  obtain ⟨-, hlen, hrec⟩ := PostConvertHook_frame ⟨allocFrom 0 userAndPolicy, []⟩
    (heapOf userAndPolicy) (by decide) none _ heap2 h2
  refine ⟨by decide, _, heap2, h2, hlen, ?_, ?_⟩
  · obtain ⟨r2, hr2, -, -, -, -, -, -, -, -, hsame⟩ := hrec 0 _ rfl
    rw [hr2, hsame (by decide) (by decide)]
    rfl
  · obtain ⟨r2, hr2, -, -, -, -, -, -, -, hattr, -⟩ := hrec 1 _ rfl
    rw [hr2, Option.some_bind, hattr "path" (by decide) (by decide)]
    rfl

/-- On `policyAndRole`, whose records each have a map of their own, the
formatter completes and both texts are wrapped in the stored records. -/
theorem PostConvertHook_wraps_policy_text_witness :
    OwnMaps ⟨allocFrom 0 policyAndRole, []⟩ ∧
    ∃ g2 heap2,
      PostConvertHook ⟨allocFrom 0 policyAndRole, []⟩ (heapOf policyAndRole) =
        .returned none g2 heap2 ∧
      ((stored g2 heap2).get? 0).bind (fun r2 => attr r2 "policy") =
        some (.str "<<POLICY\nP\nPOLICY") ∧
      ((stored g2 heap2).get? 1).bind (fun r2 => attr r2 "assume_role_policy") =
        some (.str "<<POLICY\nQ\nPOLICY") := by
  obtain ⟨heap2, h2⟩ := (PostConvertHook_ready ⟨allocFrom 0 policyAndRole, []⟩
    (heapOf policyAndRole)).1 (by decide)
  exact ⟨by decide, _, heap2, h2,
    (PostConvertHook_wraps_policy_text ⟨allocFrom 0 policyAndRole, []⟩ (heapOf policyAndRole)
      (by decide) none _ heap2 h2 0 _ "P" rfl).1 (by decide) rfl,
    (PostConvertHook_wraps_policy_text ⟨allocFrom 0 policyAndRole, []⟩ (heapOf policyAndRole)
      (by decide) none _ heap2 h2 1 _ "Q" rfl).2 rfl rfl⟩

/-- C3, as stated, fails: on a policy record without a `policy` attribute,
and on a role whose `assume_role_policy` is not a string, `PostConvertHook`
ends in a run-time panic instead of returning. -/
theorem PostConvertHook_panics :
    PostConvertHook ⟨allocFrom 0 policyWithoutText, []⟩ (heapOf policyWithoutText) = .panic ∧
    PostConvertHook ⟨allocFrom 0 roleWithNonString, []⟩ (heapOf roleWithNonString) = .panic :=
  ⟨(PostConvertHook_ready _ _).2 (by decide), (PostConvertHook_ready _ _).2 (by decide)⟩

/-- C3, amended. `PostConvertHook` completes normally and returns nil, for
every generator and heap in which every record of one of the four policy types
has a string under `policy` and every record of type `aws_iam_role` has a
string under `assume_role_policy`; on every other state it ends in a run-time
panic; it never returns a non-nil error. -/
theorem PostConvertHook_completes_when_ready (g : IamGenerator) (heap : Heap) :
    (HookReady g heap → ∃ heap2, PostConvertHook g heap = .returned none g heap2) ∧
    (¬HookReady g heap → PostConvertHook g heap = .panic) ∧
    (∀ err g2 heap2, PostConvertHook g heap = .returned err g2 heap2 →
      err = none ∧ g2 = g) := by
  refine ⟨(PostConvertHook_ready g heap).1, (PostConvertHook_ready g heap).2, ?_⟩
  intro err g2 heap2 h
  unfold PostConvertHook at h
  cases hl : hookLoop g.Resources g.Resources.enum heap with
  | none => simp [hl] at h
  | some heap3 =>
    simp only [hl, Outcome.returned.injEq] at h
    exact ⟨h.1.symm, h.2.1.symm⟩

/-- On `policyAndRole`, whose records are ready, the formatter returns nil. -/
theorem PostConvertHook_completes_when_ready_witness :
    HookReady ⟨allocFrom 0 policyAndRole, []⟩ (heapOf policyAndRole) ∧
      ∃ heap2, PostConvertHook ⟨allocFrom 0 policyAndRole, []⟩ (heapOf policyAndRole) =
        .returned none ⟨allocFrom 0 policyAndRole, []⟩ heap2 :=
  ⟨by decide, (PostConvertHook_completes_when_ready _ _).1 (by decide)⟩

end Iam
